import Mathlib

/-!
# Verification of `todoist-taskwarrior` against its specification

Shallow embedding of the repository's Python sources
(`src/todoist_taskwarrior/utils.py` and `src/todoist_taskwarrior/cli.py`)
into Lean 4, together with theorems settling the frozen claims.

Conventions:
* Python `None` for an optional *value* is `Option.none`.
* A Python dict key that may be absent is an outer `Option`; a field that can
  be present *with value `None`* is `Option (Option _)`.
* Python exceptions are `Except`: `UnsupportedRecurrence phrase` becomes
  `Except.error phrase`; other uncaught exceptions (`KeyError`, `ValueError`,
  `TypeError`) become `Except.error ()`.
* Timestamps (`datetime.now()`, Taskwarrior's `modified`, the `todoist_sync`
  UDA) are modelled as a logical clock of type `Nat`: `datetime.now()` reads
  and advances the clock, and `dateutil.parser.parse(x).timestamp()` applied
  to a stored stamp is the identity on the stored `Nat`.  This preserves the
  only property the code uses: strict monotonicity of wall-clock time.
-/

namespace TodoistTW

/-! ## utils.py — mappings -/

/-- A Python project/tag *name* after translation through a configured map:
`SRC=` entries map a name to `None`, so translated names are `Option String`
(`none` is Python `None` used as a name). -/
abbrev PName := Option String

/-- `utils.try_map` specialised to maps whose values may be `None`
(project/tag maps built by the `SRC=DST` validator): returns `m[value]` if
`value` is a key, else `value` itself. -/
def try_map (m : List (String × PName)) (value : String) : PName :=
  match m.find? (fun kv => kv.1 = value) with
  | some kv => kv.2
  | none => some value

/-! ## utils.py — priorities -/

/-- Taskwarrior letter priority (`'L' | 'M' | 'H'`). The local priority as a
whole is `Option TwPrio`, `none` being Python `None` / "no priority". -/
inductive TwPrio where
  | L | M | H
  deriving DecidableEq, Repr

/-- `utils.ti_priority_to_tw`: table `TI_PRIORITY_MAP = {1: None, 2: 'L',
3: 'M', 4: 'H'}` applied to `int(priority)`; any other key raises `KeyError`
(modelled as `Except.error ()`). -/
def ti_priority_to_tw (priority : Int) : Except Unit (Option TwPrio) :=
  if priority = 1 then .ok none
  else if priority = 2 then .ok (some .L)
  else if priority = 3 then .ok (some .M)
  else if priority = 4 then .ok (some .H)
  else .error ()

/-- `utils.tw_priority_to_ti`: the reversed table `{None: 1, 'L': 2, 'M': 3,
'H': 4}`.  On the `Option TwPrio` domain the lookup is total, so no error
case is needed. -/
def tw_priority_to_ti (priority : Option TwPrio) : Int :=
  match priority with
  | none => 1
  | some .L => 2
  | some .M => 3
  | some .H => 4

/-! ## utils.py — strings -/

/-- `utils.maybe_quote_ws`: wraps a value in single quotes if it contains a
space or a tab; `None` input returns `None`. -/
def maybe_quote_ws (value : PName) : PName :=
  match value with
  | none => none
  | some v =>
    if v.data.any (fun x => x = ' ' ∨ x = '\t') then
      some ("'" ++ v ++ "'")
    else some v

/-! ## utils.py — dates

`utils.parse_date` delegates to `dateutil.parser.parse`, an external
dependency.  We embed an executable parser `dateutil_parse` covering the two
textual shapes the program feeds it (the Todoist `"Fri 26 Sep 2014 08:25:05
+0000"` form named in the source's docstring, and the ISO `"2016-12-01T12:00:00"`
form of `due['date']` shown in `parse_due`'s docstring); everything
`dateutil_parse` rejects models a `ValueError` from the library. -/

/-- A parsed naive-or-aware datetime: calendar fields plus an optional UTC
offset in minutes (`tzinfo`). -/
structure PyDateTime where
  year : Nat
  month : Nat
  day : Nat
  hour : Nat
  minute : Nat
  second : Nat
  tz : Option Int
  deriving DecidableEq, Repr

/-- ASCII lowercase on a char (all inputs here are ASCII). -/
def lowerC (c : Char) : Char :=
  if 'A' ≤ c ∧ c ≤ 'Z' then Char.ofNat (c.toNat + 32) else c

def isDigitC (c : Char) : Bool := '0' ≤ c ∧ c ≤ '9'

/-- Month-name abbreviations recognised by the general-purpose parser
(first three letters, lowercase). -/
def monthOfName (cs : List Char) : Option Nat :=
  match cs with
  | ['j', 'a', 'n'] => some 1 | ['f', 'e', 'b'] => some 2
  | ['m', 'a', 'r'] => some 3 | ['a', 'p', 'r'] => some 4
  | ['m', 'a', 'y'] => some 5 | ['j', 'u', 'n'] => some 6
  | ['j', 'u', 'l'] => some 7 | ['a', 'u', 'g'] => some 8
  | ['s', 'e', 'p'] => some 9 | ['o', 'c', 't'] => some 10
  | ['n', 'o', 'v'] => some 11 | ['d', 'e', 'c'] => some 12
  | _ => none

def weekdayAbbrevs : List (List Char) :=
  [['m', 'o', 'n'], ['t', 'u', 'e'], ['w', 'e', 'd'], ['t', 'h', 'u'],
   ['f', 'r', 'i'], ['s', 'a', 't'], ['s', 'u', 'n']]

def natOfDigits? (cs : List Char) : Option Nat :=
  if cs = [] ∨ cs.any (fun c => ¬ isDigitC c) then none
  else some (cs.foldl (fun a c => a * 10 + (c.toNat - 48)) 0)

/-- Split a char list on a separator character (no empty-run collapsing). -/
def splitOnChar (sep : Char) (cs : List Char) : List (List Char) :=
  match cs with
  | [] => [[]]
  | c :: rest =>
    let r := splitOnChar sep rest
    if c = sep then [] :: r
    else match r with
      | [] => [[c]]
      | h :: t => (c :: h) :: t

/-- Parse `"HH:MM:SS"` (or `"HH:MM"`, seconds defaulting to 0). -/
def parseHMS (cs : List Char) : Option (Nat × Nat × Nat) :=
  match splitOnChar ':' cs with
  | [h, m] => do
    let h ← natOfDigits? h
    let m ← natOfDigits? m
    pure (h, m, 0)
  | [h, m, sec] => do
    let h ← natOfDigits? h
    let m ← natOfDigits? m
    let sec ← natOfDigits? sec
    pure (h, m, sec)
  | _ => none

/-- Parse a `"+HHMM"` / `"-HHMM"` UTC offset to minutes. -/
def parseOffset (cs : List Char) : Option Int :=
  match cs with
  | sign :: h1 :: h2 :: m1 :: m2 :: [] => do
    let h ← natOfDigits? [h1, h2]
    let m ← natOfDigits? [m1, m2]
    let mins : Int := (h * 60 + m : Nat)
    if sign = '+' then pure mins
    else if sign = '-' then pure (-mins)
    else none
  | _ => none

/-- The RFC-822-like Todoist creation-date form:
`[Weekday ]DD Mon YYYY HH:MM:SS [±HHMM]`. -/
def parseRfcLike (ws : List (List Char)) : Option PyDateTime :=
  let ws := match ws with
    | w :: rest =>
      if weekdayAbbrevs.contains ((w.map lowerC).take 3) then rest else ws
    | [] => ws
  match ws with
  | [d, mon, y, hms] => do
    let day ← natOfDigits? d
    let month ← monthOfName ((mon.map lowerC).take 3)
    let year ← natOfDigits? y
    let (h, m, s) ← parseHMS hms
    pure ⟨year, month, day, h, m, s, none⟩
  | [d, mon, y, hms, off] => do
    let day ← natOfDigits? d
    let month ← monthOfName ((mon.map lowerC).take 3)
    let year ← natOfDigits? y
    let (h, m, s) ← parseHMS hms
    let tz ← parseOffset off
    pure ⟨year, month, day, h, m, s, some tz⟩
  | _ => none

/-- The ISO form `YYYY-MM-DD[THH:MM:SS[Z]]`. -/
def parseIso (cs : List Char) : Option PyDateTime :=
  match splitOnChar 'T' cs with
  | [d] => do
    match splitOnChar '-' d with
    | [y, mo, da] => do
      let year ← natOfDigits? y
      let month ← natOfDigits? mo
      let day ← natOfDigits? da
      pure ⟨year, month, day, 0, 0, 0, none⟩
    | _ => none
  | [d, t] => do
    match splitOnChar '-' d with
    | [y, mo, da] => do
      let year ← natOfDigits? y
      let month ← natOfDigits? mo
      let day ← natOfDigits? da
      let (t, tz) :=
        if t.getLast? = some 'Z' then (t.dropLast, some (0 : Int)) else (t, none)
      let (h, m, sec) ← parseHMS t
      pure ⟨year, month, day, h, m, sec, tz⟩
    | _ => none
  | _ => none

/-- Model of `dateutil.parser.parse` on the inputs this program produces. -/
def dateutil_parse (s : String) : Option PyDateTime :=
  parseIso s.data <|>
  parseRfcLike ((splitOnChar ' ' s.data).filter (fun w => w ≠ []))

/-- Decimal digits of a natural number, via structural fuel so the kernel
can evaluate it (`n` itself bounds the number of digits). -/
def natDigitsAux : Nat → Nat → List Char → List Char
  | 0, _, acc => acc
  | fuel + 1, n, acc =>
    let acc := Char.ofNat (48 + n % 10) :: acc
    if n < 10 then acc else natDigitsAux fuel (n / 10) acc

def natDigits (n : Nat) : List Char := natDigitsAux (n + 1) n []

def padDigits (width : Nat) (n : Nat) : List Char :=
  let d := natDigits n
  List.replicate (width - d.length) '0' ++ d

/-- `strftime('%Y%m%dT%H%M%SZ')` on a datetime whose `tzinfo` has been
dropped (`naive.replace(tzinfo=None)`): only the calendar fields matter. -/
def strftimeCompact (dt : PyDateTime) : String :=
  String.mk (padDigits 4 dt.year ++ padDigits 2 dt.month ++ padDigits 2 dt.day ++
    ['T'] ++ padDigits 2 dt.hour ++ padDigits 2 dt.minute ++
    padDigits 2 dt.second ++ ['Z'])

/-- `utils.parse_date`: `None`/empty input (Python-falsy) returns `None`;
otherwise parses, drops `tzinfo` without conversion, and formats as
`YYYYMMDDTHHMMSSZ`.  An unparseable string raises (`ValueError` from the
parser), modelled as `Except.error ()`. -/
def parse_date (date : Option String) : Except Unit (Option String) :=
  match date with
  | none => .ok none
  | some s =>
    if s.data = [] then .ok none
    else match dateutil_parse s with
      | some dt => .ok (some (strftimeCompact { dt with tz := none }))
      | none => .error ()

/-! ## utils.py — recurrence parsing

The five `re` patterns are embedded as terms of a small regular-expression
AST together with a backtracking matcher `mrun` that mirrors Python `re`
semantics on these patterns: leftmost alternation preference, greedy `?` and
`+` with backtracking, named captures, and `$` matching at the end of the
string or just before a final newline.  `re.match` anchors at the start,
and each of the five patterns carries its own `$`. -/

/-- Named captures of a match; later entries are shadowed by earlier ones
(each group is set at most once per successful path here). -/
abbrev Groups := List (String × String)

def gset (n : String) (v : List Char) (g : Groups) : Groups :=
  (n, String.mk v) :: g

/-- `match.groupdict()[n]`: `none` when the group did not participate. -/
def gget (g : Groups) (n : String) : Option String :=
  (g.find? (fun kv => kv.1 = n)).map (fun kv => kv.2)

/-- Python truthiness of `groupdict()[n]` (`None` and `""` are falsy). -/
def truthyGroup (g : Groups) (n : String) : Bool :=
  match gget g n with
  | some v => v.data ≠ []
  | none => false

/-- Regular-expression AST: exactly the constructs the five patterns use. -/
inductive RE where
  | eps
  | lit (cs : List Char)
  | cls (p : Char → Bool)
  | seq (a b : RE)
  | alt (a b : RE)
  | opt (a : RE)
  | grp (n : String) (a : RE)
  | plus (p : Char → Bool)
  | eol

/-- Greedy one-or-more character-class matching (`\d+`): try the longest
run first, backtracking down to length 1. -/
def plusRun (s : List Char) (g : Groups)
    (k : List Char → Groups → Option Groups) : Nat → Option Groups
  | 0 => none
  | j + 1 => (k (s.drop (j + 1)) g) <|> plusRun s g k j

/-- The backtracking matcher, in continuation-passing style.  A failing
left alternative or a failing greedy attempt discards its group
assignments, as in Python `re`. -/
def mrun : RE → List Char → Groups → (List Char → Groups → Option Groups) →
    Option Groups
  | .eps, s, g, k => k s g
  | .lit l, s, g, k => if l.isPrefixOf s then k (s.drop l.length) g else none
  | .cls p, s, g, k =>
    match s with
    | c :: rest => if p c then k rest g else none
    | [] => none
  | .seq a b, s, g, k => mrun a s g (fun s' g' => mrun b s' g' k)
  | .alt a b, s, g, k => (mrun a s g k) <|> (mrun b s g k)
  | .opt a, s, g, k => (mrun a s g k) <|> k s g
  | .grp n a, s, g, k =>
    mrun a s g (fun s' g' => k s' (gset n (s.take (s.length - s'.length)) g'))
  | .plus p, s, g, k => plusRun s g k (s.takeWhile p).length
  | .eol, s, g, k => if s = [] ∨ s = ['\n'] then k s g else none

/-- `re.match` (anchored at the start; the pattern's own `$` anchors the
end): returns the named captures on success. -/
def reMatch (r : RE) (s : String) : Option Groups :=
  mrun r s.data [] (fun _ g => some g)

def lits (s : String) : RE := .lit s.data

/-- Left-preferring alternation list `a|b|c|...`. -/
def alts : List RE → RE
  | [] => .eps
  | [r] => r
  | r :: rest => .alt r (alts rest)

/-- Python `\s` (ASCII range). -/
def isPySpace (c : Char) : Bool :=
  c = ' ' ∨ c = '\t' ∨ c = '\n' ∨ c = '\x0d' ∨ c = '\x0b' ∨ c = '\x0c'

/-- `_PERIOD = (?P<period>hour|day|week|month|year)s?` -/
def rePERIOD : RE :=
  .seq (.grp "period"
    (alts [lits "hour", lits "day", lits "week", lits "month", lits "year"]))
    (.opt (lits "s"))

/-- `_EVERY = ev(ery)?` -/
def reEVERY : RE := .seq (lits "ev") (.opt (lits "ery"))

/-- `_CYCLES = ((?P<cycles>\d+)(st|nd|rd|th)?)` -/
def reCYCLES : RE :=
  .seq (.grp "cycles" (.plus isDigitC))
    (.opt (alts [lits "st", lits "nd", lits "rd", lits "th"]))

/-- `_OTHER = (?P<other>other)` -/
def reOTHER : RE := .grp "other" (lits "other")

/-- `_SIMPLE = (?P<simple>daily|weekly|monthly|yearly)` -/
def reSIMPLE : RE :=
  .grp "simple" (alts [lits "daily", lits "weekly", lits "monthly", lits "yearly"])

/-- `_DOW`: weekday names by common abbreviations/prefixes. -/
def reDOW : RE :=
  .grp "dayofweek" (alts
    [ .seq (lits "mo") (.opt (.seq (lits "n") (.opt (lits "day")))),
      .seq (lits "tu") (.opt (.seq (lits "e")
        (.opt (.seq (lits "s") (.opt (lits "day")))))),
      .seq (lits "we") (.opt (.seq (lits "d")
        (.opt (.alt (lits "s") (.opt (.seq (lits "nes") (.opt (lits "day")))))))),
      .seq (lits "th") (.opt (.seq (lits "u")
        (.opt (.seq (lits "rs") (.opt (lits "day")))))),
      .seq (lits "fr") (.opt (.seq (lits "i") (.opt (lits "day")))),
      .seq (lits "sa") (.opt (.seq (lits "t") (.opt (lits "urday")))),
      .seq (lits "su") (.opt (.seq (lits "n") (.opt (lits "day")))) ])

/-- `\d{1,2}` (greedy). -/
def reDig12 : RE := .seq (.cls isDigitC) (.opt (.cls isDigitC))

/-- `_IGNORED = (\sat (\d{1,2}:\d{1,2})|(\d{1,2}(am|pm)))?` -/
def reIGNORED : RE :=
  .opt (.alt
    (.seq (.cls isPySpace) (.seq (lits "at ")
      (.seq reDig12 (.seq (lits ":") reDig12))))
    (.seq reDig12 (.alt (lits "am") (lits "pm"))))

/-- `RE_SINGLE_CYCLE = ^((EVERY\s(1\s)?PERIOD)|SIMPLE)IGNORED$` -/
def RE_SINGLE_CYCLE : RE :=
  .seq (.alt
      (.seq reEVERY (.seq (.cls isPySpace)
        (.seq (.opt (.seq (lits "1") (.cls isPySpace))) rePERIOD)))
      reSIMPLE)
    (.seq reIGNORED .eol)

/-- `RE_MULTI_CYCLE = ^EVERY\s(CYCLES|other)\sPERIOD IGNORED$` -/
def RE_MULTI_CYCLE : RE :=
  .seq reEVERY (.seq (.cls isPySpace)
    (.seq (.alt reCYCLES (lits "other")) (.seq (.cls isPySpace)
      (.seq rePERIOD (.seq reIGNORED .eol)))))

/-- `RE_EVERY_DOW = ^EVERY\s((CYCLES|OTHER)\s)?DOW IGNORED$` -/
def RE_EVERY_DOW : RE :=
  .seq reEVERY (.seq (.cls isPySpace)
    (.seq (.opt (.seq (.alt reCYCLES reOTHER) (.cls isPySpace)))
      (.seq reDOW (.seq reIGNORED .eol))))

/-- `RE_EVERY_DOM = ^EVERY\s CYCLES IGNORED$` -/
def RE_EVERY_DOM : RE :=
  .seq reEVERY (.seq (.cls isPySpace) (.seq reCYCLES (.seq reIGNORED .eol)))

/-- `RE_SPECIAL = ^EVERY\s(?P<label>morning|evening|weekday|workday|last\sday)$` -/
def RE_SPECIAL : RE :=
  .seq reEVERY (.seq (.cls isPySpace)
    (.seq (.grp "label" (alts
      [lits "morning", lits "evening", lits "weekday", lits "workday",
       .seq (lits "last") (.seq (.cls isPySpace) (lits "day"))]))
      .eol))

/-- `PERIOD_TO_SIMPLE` table. -/
def PERIOD_TO_SIMPLE (p : String) : Option String :=
  match p with
  | "hour" => some "hourly"
  | "day" => some "daily"
  | "week" => some "weekly"
  | "month" => some "monthly"
  | "year" => some "yearly"
  | _ => none

/-- `utils._recur_single_cycle`.  (When the pattern matches and `simple` did
not participate, the `every ... PERIOD` branch did, so `period` is always
captured and the `none` fall-through is unreachable.) -/
def _recur_single_cycle (ds : String) : Option String :=
  match reMatch RE_SINGLE_CYCLE ds with
  | none => none
  | some g =>
    if truthyGroup g "simple" then gget g "simple"
    else match gget g "period" with
      | some period => PERIOD_TO_SIMPLE period
      | none => none

/-- `utils._recur_multi_cycle`: `f'{cycles} {period}s'` with `cycles`
defaulting to the integer 2 when the literal `other` matched. -/
def _recur_multi_cycle (ds : String) : Option String :=
  match reMatch RE_MULTI_CYCLE ds with
  | none => none
  | some g =>
    match gget g "period" with
    | some period =>
      let cycles := if truthyGroup g "cycles" then (gget g "cycles").getD "2" else "2"
      some (cycles ++ " " ++ period ++ "s")
    | none => none

/-- `utils._recur_day_of_week`.  NB: when an explicit count was captured,
Python's `cycles` is a *string*, and `'weekly' if cycles == 1 else ...`
compares string to int, which is `False` — so an explicit count of 1
("every 1 monday") produces `"1 weeks"`, not `"weekly"`. -/
def _recur_day_of_week (ds : String) : Option String :=
  match reMatch RE_EVERY_DOW ds with
  | none => none
  | some g =>
    if truthyGroup g "cycles" then
      some ((gget g "cycles").getD "" ++ " weeks")
    else if truthyGroup g "other" then some "2 weeks"
    else some "weekly"

/-- `utils._recur_day_of_month`. -/
def _recur_day_of_month (ds : String) : Option String :=
  match reMatch RE_EVERY_DOM ds with
  | none => none
  | some _ => some "monthly"

/-- `utils._recur_special`: the `if/elif` chain falls through to an implicit
`None` when the captured label is none of the five comparison strings
(e.g. `"last\tday"`, where `\s` matched a tab). -/
def _recur_special (ds : String) : Option String :=
  match reMatch RE_SPECIAL ds with
  | none => none
  | some g =>
    match gget g "label" with
    | some "morning" => some "daily"
    | some "evening" => some "daily"
    | some "weekday" => some "weekdays"
    | some "workday" => some "weekdays"
    | some "last day" => some "monthly"
    | _ => none

/-- Words of a char list, splitting on runs of Python whitespace. -/
def wordsAux : List Char → List Char → List (List Char)
  | [], cur => if cur = [] then [] else [cur.reverse]
  | c :: rest, cur =>
    if isPySpace c then
      if cur = [] then wordsAux rest [] else cur.reverse :: wordsAux rest []
    else wordsAux rest (c :: cur)

/-- The normalization in `parse_recur_string`:
`' '.join(date_string.lower().strip().split())`. -/
def normalize (s : String) : String :=
  String.mk (List.intercalate [' '] (wordsAux (s.data.map lowerC) []))

/-- `utils.parse_recur_string`: Python-falsy (empty) input returns `None`
without raising; otherwise the five families are tried in order on the
*normalized* phrase (each produced token is non-empty, so Python's
`or`-chain is `Option.orElse`), and if none matches,
`UnsupportedRecurrence(date_string)` is raised — where `date_string` has
been re-bound to the normalized phrase. -/
def parse_recur_string (date_string : String) : Except String (Option String) :=
  if date_string.data = [] then .ok none
  else
    let ds := normalize date_string
    match _recur_single_cycle ds <|> _recur_multi_cycle ds <|>
          _recur_day_of_week ds <|> _recur_day_of_month ds <|>
          _recur_special ds with
    | some result => .ok (some result)
    | none => .error ds

instance instDecEqExcept {e a : Type} [DecidableEq e] [DecidableEq a] :
    DecidableEq (Except e a) := fun x y =>
  match x, y with
  | .ok u, .ok v =>
    if h : u = v then isTrue (by rw [h]) else isFalse (by simp [h])
  | .error u, .error v =>
    if h : u = v then isTrue (by rw [h]) else isFalse (by simp [h])
  | .ok _, .error _ => isFalse (by simp)
  | .error _, .ok _ => isFalse (by simp)

/-- An empty string is rejected by the date parser (needed to discharge the
falsy-input branch of `parse_date` under a parse-success hypothesis). -/
theorem dateutil_parse_nil (s : String) (h : s.data = []) :
    dateutil_parse s = none := by
  unfold dateutil_parse parseIso
  rw [h]
  rfl

/-! ## Claims C5, C6, C7, C8, C10 (utils layer) -/

/-- **C5.** Priority round-trip: every local priority in
{absent, L, M, H} survives local→remote→local, and every remote priority in
{1, 2, 3, 4} survives remote→local→remote (remote 1 passing through local
absent). -/
theorem claim_C5_priority_roundtrip :
    (ti_priority_to_tw (tw_priority_to_ti none) = .ok none) ∧
    (ti_priority_to_tw (tw_priority_to_ti (some .L)) = .ok (some .L)) ∧
    (ti_priority_to_tw (tw_priority_to_ti (some .M)) = .ok (some .M)) ∧
    (ti_priority_to_tw (tw_priority_to_ti (some .H)) = .ok (some .H)) ∧
    ((ti_priority_to_tw 1).map tw_priority_to_ti = .ok 1) ∧
    ((ti_priority_to_tw 2).map tw_priority_to_ti = .ok 2) ∧
    ((ti_priority_to_tw 3).map tw_priority_to_ti = .ok 3) ∧
    ((ti_priority_to_tw 4).map tw_priority_to_ti = .ok 4) ∧
    (ti_priority_to_tw 1 = .ok none) := by
  decide

/-- **C6.** Date parsing: absent (or empty, Python-falsy) input converts to
absent; every parseable remote timestamp is formatted as `YYYYMMDDTHHMMSSZ`
from its naive calendar fields with the timezone component dropped (not
converted); in particular `"Fri 26 Sep 2014 08:25:05 +0000"` yields
`"20140926T082505Z"`. -/
theorem claim_C6_date_conversion :
    parse_date none = .ok none ∧
    parse_date (some "") = .ok none ∧
    (∀ (s : String) (dt : PyDateTime), dateutil_parse s = some dt →
      parse_date (some s) = .ok (some (strftimeCompact { dt with tz := none }))) ∧
    parse_date (some "Fri 26 Sep 2014 08:25:05 +0000") =
      .ok (some "20140926T082505Z") := by
  refine ⟨rfl, rfl, ?_, by decide⟩
  intro s dt h
  show (if s.data = [] then Except.ok none
    else match dateutil_parse s with
      | some dt => .ok (some (strftimeCompact { dt with tz := none }))
      | none => .error ()) = _
  by_cases hd : s.data = []
  · rw [dateutil_parse_nil s hd] at h
    exact absurd h (by simp)
  · rw [if_neg hd, h]

/-- Witness for C6: the ISO due-date form, with the universally quantified
conjunct instantiated at a concrete parse. -/
theorem claim_C6_date_conversion_witness :
    parse_date (some "2016-12-01T12:00:00") =
      .ok (some (strftimeCompact ⟨2016, 12, 1, 12, 0, 0, none⟩)) :=
  claim_C6_date_conversion.2.2.1 "2016-12-01T12:00:00"
    ⟨2016, 12, 1, 12, 0, 0, none⟩ (by decide)

/-- **C7, counterexample.** The claim says an explicit cycle count of 1
("every 1 monday") yields `"weekly"`; the code compares the *string* `'1'`
with the *int* `1`, so it yields `"1 weeks"` instead. -/
theorem claim_C7_counterexample :
    parse_recur_string "every 1 monday" = .ok (some "1 weeks") ∧
    _recur_day_of_week "every 1 monday" ≠ some "weekly" ∧
    _recur_day_of_week "every 1st monday" = some "1 weeks" := by
  decide

/-- The weekday spellings accepted by the `_DOW` pattern family. -/
def dowWords : List String :=
  ["mo", "mon", "monday", "tu", "tue", "tues", "tuesday",
   "we", "wed", "weds", "wednes", "wednesday",
   "th", "thu", "thurs", "thursday", "fr", "fri", "friday",
   "sa", "sat", "saturday", "su", "sun", "sunday"]

/-! ### General day-of-week recurrence: symbolic cycle counts -/

theorem mem_of_eq_mem {α : Type} (l : List α) (a b : α) (h : a = b)
    (hm : b ∈ l) : a ∈ l := h ▸ hm

/-- A digit character is one of the ten digits. -/
theorem digit_mem (c : Char) (h : isDigitC c = true) :
    c ∈ (['0','1','2','3','4','5','6','7','8','9'] : List Char) := by
  simp only [isDigitC, decide_eq_true_eq] at h
  obtain ⟨h1, h2⟩ := h
  obtain ⟨⟨⟨v, hvlt⟩⟩, hvalid⟩ := c
  have hb1 : 48 ≤ v := h1
  have hb2 : v ≤ 57 := h2
  interval_cases v <;>
    first
    | exact mem_of_eq_mem _ _ '0' rfl (by decide)
    | exact mem_of_eq_mem _ _ '1' rfl (by decide)
    | exact mem_of_eq_mem _ _ '2' rfl (by decide)
    | exact mem_of_eq_mem _ _ '3' rfl (by decide)
    | exact mem_of_eq_mem _ _ '4' rfl (by decide)
    | exact mem_of_eq_mem _ _ '5' rfl (by decide)
    | exact mem_of_eq_mem _ _ '6' rfl (by decide)
    | exact mem_of_eq_mem _ _ '7' rfl (by decide)
    | exact mem_of_eq_mem _ _ '8' rfl (by decide)
    | exact mem_of_eq_mem _ _ '9' rfl (by decide)

theorem lowerC_digit (c : Char) (h : isDigitC c = true) : lowerC c = c := by
  simp only [isDigitC, decide_eq_true_eq] at h
  unfold lowerC
  rw [if_neg]
  rintro ⟨hA, _⟩
  exact absurd (le_trans hA h.2) (by decide)

theorem digit_not_space (c : Char) (h : isDigitC c = true) :
    isPySpace c = false := by
  have hmem := digit_mem c h
  fin_cases hmem <;> rfl

/-- All-digit prefix followed by a non-digit continuation: the greedy run
is exactly the prefix. -/
theorem takeWhile_digits (d rest : List Char)
    (hdig : ∀ c ∈ d, isDigitC c = true)
    (hrest : rest.takeWhile isDigitC = []) :
    (d ++ rest).takeWhile isDigitC = d := by
  induction d with
  | nil => simpa using hrest
  | cons c t ih =>
    rw [List.cons_append]
    simp only [List.takeWhile_cons, hdig c (by simp), if_pos]
    rw [ih (fun x hx => hdig x (List.mem_cons_of_mem c hx))]

/-- A greedy run none of whose split points lets the continuation proceed
fails. -/
theorem plusRun_none (s : List Char) (g : Groups)
    (k : List Char → Groups → Option Groups) :
    ∀ j, (∀ i, 1 ≤ i → i ≤ j → k (s.drop i) g = none) →
      plusRun s g k j = none := by
  intro j
  induction j with
  | zero => intro _; rfl
  | succ n ih =>
    intro h
    show (k (s.drop (n + 1)) g <|> plusRun s g k n) = none
    rw [h (n + 1) (by omega) (le_refl _)]
    show plusRun s g k n = none
    exact ih (fun i h1 h2 => h i h1 (by omega))

/-- A word chunk (no whitespace) accumulates across `wordsAux`. -/
theorem wordsAux_chunk (u : List Char) (rest acc : List Char)
    (hu : ∀ c ∈ u, isPySpace c = false) :
    wordsAux (u ++ rest) acc = wordsAux rest (u.reverse ++ acc) := by
  induction u generalizing acc with
  | nil => simp
  | cons c t ih =>
    rw [List.cons_append]
    show wordsAux (c :: (t ++ rest)) acc = _
    rw [wordsAux, hu c (by simp)]
    show wordsAux (t ++ rest) (c :: acc) = _
    rw [ih (c :: acc) (fun x hx => hu x (List.mem_cons_of_mem c hx))]
    simp

/-- The ordinal suffixes accepted by `_CYCLES`. -/
def sufList : List String := ["", "st", "nd", "rd", "th"]

/-- Continuation of `RE_EVERY_DOW` after the optional count part. -/
def kDowCont : List Char → Groups → Option Groups :=
  fun s g => mrun reDOW s g
    (fun s' g' => mrun reIGNORED s' g'
      (fun s2 g2 => mrun RE.eol s2 g2 (fun _ g3 => some g3)))

/-- Continuation of `RE_EVERY_DOW` after a matched count alternative. -/
def kDowAlt : List Char → Groups → Option Groups :=
  fun sa ga => mrun (RE.cls isPySpace) sa ga kDowCont

/-- The continuation fed to the greedy digit run of `RE_EVERY_DOW` when the
run started at `sB`: capture the digits, then the optional ordinal suffix,
a space, and the weekday tail. -/
def kDow (sB : List Char) : List Char → Groups → Option Groups :=
  fun s' g' =>
    mrun (RE.opt (alts [lits "st", lits "nd", lits "rd", lits "th"])) s'
      (gset "cycles" (sB.take (sB.length - s'.length)) g') kDowAlt

/-- Continuation of `RE_MULTI_CYCLE` after the count alternative. -/
def kCountCont : List Char → Groups → Option Groups :=
  fun s g => mrun (RE.cls isPySpace) s g
    (fun s' g' => mrun rePERIOD s' g'
      (fun s2 g2 => mrun reIGNORED s2 g2
        (fun s3 g3 => mrun RE.eol s3 g3 (fun _ g4 => some g4))))

/-- The continuation fed to the greedy digit run of `RE_MULTI_CYCLE`. -/
def kMulti (sB : List Char) : List Char → Groups → Option Groups :=
  fun s' g' =>
    mrun (RE.opt (alts [lits "st", lits "nd", lits "rd", lits "th"])) s'
      (gset "cycles" (sB.take (sB.length - s'.length)) g') kCountCont

/-- Splitting the digit run before its end leaves a digit in front, where
both the ordinal suffix and the mandatory space fail. -/
theorem kMulti_digit (sB : List Char) (c2 : Char) (t2 : List Char)
    (g : Groups) (h : isDigitC c2 = true) : kMulti sB (c2 :: t2) g = none := by
  have hmem := digit_mem c2 h
  fin_cases hmem <;> rfl

/-- After the whole digit run, `RE_MULTI_CYCLE` still needs a period word,
which no weekday spelling provides. -/
theorem kMulti_tail (sB : List Char) (suf w : String)
    (hsuf : suf ∈ sufList) (hw : w ∈ dowWords) (g : Groups) :
    kMulti sB (suf.data ++ ' ' :: w.data) g = none := by
  fin_cases hsuf <;> fin_cases hw <;> rfl

/-- After the whole digit run, the ordinal suffix, the space and the
weekday name all match, capturing the digits and the weekday. -/
theorem kDow_tail (sB : List Char) (suf w : String)
    (hsuf : suf ∈ sufList) (hw : w ∈ dowWords) (g : Groups) :
    kDow sB (suf.data ++ ' ' :: w.data) g =
      some (gset "dayofweek" w.data
        (gset "cycles"
          (sB.take (sB.length - (suf.data ++ ' ' :: w.data).length)) g)) := by
  fin_cases hsuf <;> fin_cases hw <;> rfl

/-- `RE_EVERY_DOW` matches "every <digits><suffix?> <tail>", capturing the
digit run greedily on its first attempt. -/
theorem dow_some (c : Char) (t rest : List Char) (G : Groups)
    (htw : ((c :: t) ++ rest).takeWhile isDigitC = c :: t)
    (hkt : kDow ((c :: t) ++ rest) rest [] = some G) :
    reMatch RE_EVERY_DOW (String.mk
      ('e':: 'v':: 'e':: 'r':: 'y':: ' '::((c :: t) ++ rest))) = some G := by
  have key : reMatch RE_EVERY_DOW (String.mk
      ('e':: 'v':: 'e':: 'r':: 'y':: ' '::((c :: t) ++ rest))) =
      (((plusRun ((c :: t) ++ rest) [] (kDow ((c :: t) ++ rest))
          ((((c :: t) ++ rest).takeWhile isDigitC).length) <|>
        mrun reOTHER ((c :: t) ++ rest) [] kDowAlt) <|>
        kDowCont ((c :: t) ++ rest) []) <|> none) := rfl
  rw [key, htw]
  have hdrop : ((c :: t) ++ rest).drop ((c :: t).length) = rest :=
    List.drop_left (c :: t) rest
  have hplus : plusRun ((c :: t) ++ rest) [] (kDow ((c :: t) ++ rest))
      ((c :: t).length) = some G := by
    show (kDow ((c :: t) ++ rest) (((c :: t) ++ rest).drop ((c :: t).length)) []
        <|> plusRun ((c :: t) ++ rest) [] (kDow ((c :: t) ++ rest)) t.length) =
      some G
    rw [hdrop, hkt]
    rfl
  rw [hplus]
  rfl

/-- `RE_MULTI_CYCLE` rejects "every <digits><suffix?> <weekday>": every split
of the digit run leads into a failing suffix/space/period, and the `other`
literal cannot match a digit. -/
theorem multi_none (c : Char) (t rest : List Char)
    (hc : isDigitC c = true) (hdig : ∀ x ∈ t, isDigitC x = true)
    (htw : ((c :: t) ++ rest).takeWhile isDigitC = c :: t)
    (hkt : kMulti ((c :: t) ++ rest) rest [] = none) :
    reMatch RE_MULTI_CYCLE (String.mk
      ('e':: 'v':: 'e':: 'r':: 'y':: ' '::((c :: t) ++ rest))) = none := by
  have key : reMatch RE_MULTI_CYCLE (String.mk
      ('e':: 'v':: 'e':: 'r':: 'y':: ' '::((c :: t) ++ rest))) =
      ((plusRun ((c :: t) ++ rest) [] (kMulti ((c :: t) ++ rest))
          ((((c :: t) ++ rest).takeWhile isDigitC).length) <|>
        mrun (RE.lit ['o','t','h','e','r']) ((c :: t) ++ rest) [] kCountCont)
        <|> none) := rfl
  rw [key, htw]
  have hplus : plusRun ((c :: t) ++ rest) [] (kMulti ((c :: t) ++ rest))
      ((c :: t).length) = none := by
    refine plusRun_none _ _ _ _ ?_
    intro i h1 h2
    have hidrop : ((c :: t) ++ rest).drop i = (c :: t).drop i ++ rest :=
      List.drop_append_of_le_length h2
    rcases hdi : (c :: t).drop i with _ | ⟨c2, t2⟩
    · rw [hidrop, hdi, List.nil_append]
      exact hkt
    · rw [hidrop, hdi, List.cons_append]
      refine kMulti_digit _ c2 _ [] ?_
      have hmem : c2 ∈ (c :: t).drop i := by
        rw [hdi]
        exact List.mem_cons_self c2 t2
      rcases List.mem_cons.mp (List.drop_subset i (c :: t) hmem) with rfl | hmt
      · exact hc
      · exact hdig c2 hmt
  rw [hplus]
  have hmem := digit_mem c hc
  fin_cases hmem <;> rfl

/-- `RE_SINGLE_CYCLE` rejects "every <digits><suffix?> <weekday>": a digit
run is not `1 `-then-a-period, and no weekday spelling is a period word. -/
theorem single_none (c : Char) (t : List Char) (suf w : String)
    (hc : isDigitC c = true) (hdig : ∀ x ∈ t, isDigitC x = true)
    (hsuf : suf ∈ sufList) (hw : w ∈ dowWords) :
    reMatch RE_SINGLE_CYCLE (String.mk
      ('e':: 'v':: 'e':: 'r':: 'y':: ' '::((c :: t) ++ (suf.data ++ ' ' :: w.data))))
      = none := by
  have hmem := digit_mem c hc
  fin_cases hmem <;>
    first
    | rfl
    | (cases t with
       | nil => fin_cases hsuf <;> first | rfl | (fin_cases hw <;> rfl)
       | cons c2 t2 =>
         have hc2 := digit_mem c2 (hdig c2 (by simp))
         fin_cases hc2 <;> rfl)

theorem map_lowerC_dow (w : String) (hw : w ∈ dowWords) :
    w.data.map lowerC = w.data := by
  fin_cases hw <;> rfl

theorem map_lowerC_suf (suf : String) (hsuf : suf ∈ sufList) :
    suf.data.map lowerC = suf.data := by
  fin_cases hsuf <;> rfl

theorem suf_not_space (suf : String) (hsuf : suf ∈ sufList) :
    ∀ c ∈ suf.data, isPySpace c = false := by
  fin_cases hsuf <;> decide

theorem wordsAux_dow (w : String) (hw : w ∈ dowWords) :
    wordsAux w.data [] = [w.data] := by
  fin_cases hw <;> rfl

theorem sufTail_takeWhile (suf w : String) (hsuf : suf ∈ sufList) :
    (suf.data ++ ' ' :: w.data).takeWhile isDigitC = [] := by
  fin_cases hsuf <;> rfl

/-- "every <digits><suffix?> <weekday>" is already in normal form. -/
theorem normalize_every_count (d : List Char) (suf w : String)
    (hd : d ≠ []) (hdig : ∀ c ∈ d, isDigitC c = true)
    (hsuf : suf ∈ sufList) (hw : w ∈ dowWords) :
    normalize (String.mk
      ('e':: 'v':: 'e':: 'r':: 'y':: ' '::(d ++ (suf.data ++ ' ' :: w.data)))) =
    String.mk ('e':: 'v':: 'e':: 'r':: 'y':: ' '::(d ++ (suf.data ++ ' ' :: w.data))) := by
  have hmapd : d.map lowerC = d := by
    have h1 : List.map lowerC d = List.map id d :=
      List.map_congr_left (fun c hc => lowerC_digit c (hdig c hc))
    rw [h1, List.map_id]
  have hmap : ('e':: 'v':: 'e':: 'r':: 'y':: ' '::
        (d ++ (suf.data ++ ' ' :: w.data))).map lowerC =
      'e':: 'v':: 'e':: 'r':: 'y':: ' '::(d ++ (suf.data ++ ' ' :: w.data)) := by
    simp only [List.map_cons, List.map_append, hmapd, map_lowerC_suf suf hsuf,
      map_lowerC_dow w hw, show lowerC 'e' = 'e' from rfl,
      show lowerC 'v' = 'v' from rfl, show lowerC 'r' = 'r' from rfl,
      show lowerC 'y' = 'y' from rfl, show lowerC ' ' = ' ' from rfl]
  have hw2 : wordsAux (d ++ (suf.data ++ ' ' :: w.data)) [] =
      (d ++ suf.data) :: [w.data] := by
    rw [show d ++ (suf.data ++ ' ' :: w.data) =
        (d ++ suf.data) ++ (' ' :: w.data) from
      (List.append_assoc d suf.data (' ' :: w.data)).symm]
    rw [wordsAux_chunk (d ++ suf.data) (' ' :: w.data) []
      (fun x hx => by
        rcases List.mem_append.mp hx with hxa | hxb
        · exact digit_not_space x (hdig x hxa)
        · exact suf_not_space suf hsuf x hxb)]
    rw [List.append_nil]
    have hcur : (d ++ suf.data).reverse ≠ [] := by
      simp [hd]
    rw [show wordsAux (' ' :: w.data) ((d ++ suf.data).reverse) =
        (if (d ++ suf.data).reverse = [] then wordsAux w.data []
         else ((d ++ suf.data).reverse).reverse :: wordsAux w.data []) from rfl]
    rw [if_neg hcur, List.reverse_reverse, wordsAux_dow w hw]
  show String.mk (List.intercalate [' ']
      (wordsAux (('e':: 'v':: 'e':: 'r':: 'y':: ' '::
        (d ++ (suf.data ++ ' ' :: w.data))).map lowerC) [])) = _
  rw [hmap]
  rw [show wordsAux ('e':: 'v':: 'e':: 'r':: 'y':: ' '::
      (d ++ (suf.data ++ ' ' :: w.data))) [] =
    ['e','v','e','r','y'] :: wordsAux (d ++ (suf.data ++ ' ' :: w.data)) []
    from rfl]
  rw [hw2]
  rw [show List.intercalate [' ']
      (['e','v','e','r','y'] :: (d ++ suf.data) :: [w.data]) =
    ['e','v','e','r','y'] ++ ([' '] ++ ((d ++ suf.data) ++ ([' '] ++
      (w.data ++ [])))) from rfl]
  rw [List.append_nil]
  congr 1
  simp [List.append_assoc]

/-- **C7, amended (general form).** For the day-of-week family, recurrence
parsing yields `"weekly"` only when the cycle count is *omitted*.  Every
explicitly given count — an arbitrary non-empty digit string `d`, with or
without an ordinal suffix (so "every 1 monday" and "every 1st monday"
included) — yields `"<d> weeks"` (never `"weekly"`, because the code
compares the captured count *string* with the *int* 1), and "other" yields
`"2 weeks"`. -/
theorem claim_C7_amended_day_of_week (d : List Char) (suf w : String)
    (hd : d ≠ []) (hdig : ∀ c ∈ d, isDigitC c = true)
    (hsuf : suf ∈ sufList) (hw : w ∈ dowWords) :
    parse_recur_string (String.mk
      ('e':: 'v':: 'e':: 'r':: 'y':: ' '::(d ++ (suf.data ++ ' ' :: w.data)))) =
      .ok (some (String.mk d ++ " weeks")) ∧
    String.mk d ++ " weeks" ≠ "weekly" ∧
    parse_recur_string ("every " ++ w) = .ok (some "weekly") ∧
    parse_recur_string ("every other " ++ w) = .ok (some "2 weeks") := by
  obtain ⟨c, t, rfl⟩ : ∃ c t, d = c :: t := by
    cases d with
    | nil => exact absurd rfl hd
    | cons c t => exact ⟨c, t, rfl⟩
  refine ⟨?_, ?_, ?_, ?_⟩
  · have htw : ((c :: t) ++ (suf.data ++ ' ' :: w.data)).takeWhile isDigitC =
        c :: t :=
      takeWhile_digits (c :: t) _ hdig (sufTail_takeWhile suf w hsuf)
    have htake : ((c :: t) ++ (suf.data ++ ' ' :: w.data)).take
        (((c :: t) ++ (suf.data ++ ' ' :: w.data)).length -
          (suf.data ++ ' ' :: w.data).length) = c :: t := by
      rw [List.length_append, Nat.add_sub_cancel, List.take_left]
    have hdow : _recur_day_of_week (String.mk
        ('e':: 'v':: 'e':: 'r':: 'y':: ' '::((c :: t) ++ (suf.data ++ ' ' :: w.data))))
        = some (String.mk (c :: t) ++ " weeks") := by
      unfold _recur_day_of_week
      rw [dow_some c t _ _ htw (kDow_tail _ suf w hsuf hw [])]
      rw [htake]
      rfl
    have hsingle : _recur_single_cycle (String.mk
        ('e':: 'v':: 'e':: 'r':: 'y':: ' '::((c :: t) ++ (suf.data ++ ' ' :: w.data))))
        = none := by
      unfold _recur_single_cycle
      rw [single_none c t suf w (hdig c (by simp))
        (fun x hx => hdig x (by simp [hx])) hsuf hw]
    have hmulti : _recur_multi_cycle (String.mk
        ('e':: 'v':: 'e':: 'r':: 'y':: ' '::((c :: t) ++ (suf.data ++ ' ' :: w.data))))
        = none := by
      unfold _recur_multi_cycle
      rw [multi_none c t _ (hdig c (by simp))
        (fun x hx => hdig x (by simp [hx])) htw (kMulti_tail _ suf w hsuf hw [])]
    have hnorm := normalize_every_count (c :: t) suf w hd hdig hsuf hw
    unfold parse_recur_string
    rw [if_neg (List.cons_ne_nil 'e' _)]
    dsimp only
    rw [hnorm, hsingle, hmulti, hdow]
    rfl
  · intro h
    have h2 : (c :: t) ++ " weeks".data = "weekly".data := by
      have h3 := congrArg String.data h
      simpa using h3
    have h4 := congrArg List.length h2
    simp [List.length_append] at h4
  · fin_cases hw <;> decide
  · fin_cases hw <;> decide

/-- Witness for C7's amended theorem: a two-digit count, the ordinal form
"every 1st monday", and the count-omitted form, all through
`parse_recur_string`. -/
theorem claim_C7_amended_day_of_week_witness :
    parse_recur_string "every 37 monday" = .ok (some "37 weeks") ∧
    parse_recur_string "every 1st monday" = .ok (some "1 weeks") ∧
    parse_recur_string "every monday" = .ok (some "weekly") :=
  ⟨(claim_C7_amended_day_of_week ['3','7'] "" "monday" (by decide) (by decide)
      (by decide) (by decide)).1,
   (claim_C7_amended_day_of_week ['1'] "st" "monday" (by decide) (by decide)
      (by decide) (by decide)).1,
   (claim_C7_amended_day_of_week ['1'] "st" "monday" (by decide) (by decide)
      (by decide) (by decide)).2.2.1⟩

/-- **C8, counterexample.** An unmatched phrase raises the
unsupported-recurrence failure carrying the *normalized* phrase, not the
original one: `"Every  Blue Moon"` yields payload `"every blue moon"`. -/
theorem claim_C8_counterexample :
    parse_recur_string "Every  Blue Moon" = .error "every blue moon" ∧
    parse_recur_string "Every  Blue Moon" ≠ .error "Every  Blue Moon" := by
  decide

/-- Helper: the raise branch of `parse_recur_string` fires exactly when the
input is non-empty and all five families decline the normalized phrase. -/
theorem parse_recur_string_unmatched (ds : String) (h0 : ds.data ≠ [])
    (h1 : _recur_single_cycle (normalize ds) = none)
    (h2 : _recur_multi_cycle (normalize ds) = none)
    (h3 : _recur_day_of_week (normalize ds) = none)
    (h4 : _recur_day_of_month (normalize ds) = none)
    (h5 : _recur_special (normalize ds) = none) :
    parse_recur_string ds = .error (normalize ds) := by
  unfold parse_recur_string
  simp [h0, h1, h2, h3, h4, h5, Option.orElse]

/-- **C8, amended.** Every non-empty phrase that (after normalization)
matches none of the five pattern families raises the unsupported-recurrence
failure carrying the *normalized* phrase, and returns no canonical token. -/
theorem claim_C8_amended_unsupported (ds : String) (h0 : ds.data ≠ [])
    (h1 : _recur_single_cycle (normalize ds) = none)
    (h2 : _recur_multi_cycle (normalize ds) = none)
    (h3 : _recur_day_of_week (normalize ds) = none)
    (h4 : _recur_day_of_month (normalize ds) = none)
    (h5 : _recur_special (normalize ds) = none) :
    parse_recur_string ds = .error (normalize ds) :=
  parse_recur_string_unmatched ds h0 h1 h2 h3 h4 h5

/-- Witness for C8's amended theorem at `"Every  Blue Moon"`. -/
theorem claim_C8_amended_unsupported_witness :
    parse_recur_string "Every  Blue Moon" = .error (normalize "Every  Blue Moon") :=
  claim_C8_amended_unsupported "Every  Blue Moon" (by decide) (by decide)
    (by decide) (by decide) (by decide) (by decide)

/-- **C10, counterexample.** A whitespace-only phrase is Python-truthy, so
it is *not* returned as absent: it normalizes to the empty string, matches
no family, and raises the unsupported-recurrence failure (with empty
payload) — contradicting the claim that it returns absent silently. -/
theorem claim_C10_counterexample :
    parse_recur_string " " = .error "" ∧
    ∀ r : Option String, parse_recur_string " " ≠ .ok r := by
  refine ⟨by decide, ?_⟩
  intro r h
  have : (Except.error "" : Except String (Option String)) = .ok r := by
    rw [← h]; decide
  simp at this

/-- **C10, amended.** Only the genuinely empty phrase short-circuits to
absent without raising; a non-empty phrase that normalizes to empty (i.e.
whitespace-only) instead raises the unsupported-recurrence failure with the
empty normalized phrase as payload. -/
theorem claim_C10_amended_empty_phrase :
    parse_recur_string "" = .ok none ∧
    (∀ s : String, s.data ≠ [] → (normalize s).data = [] →
      parse_recur_string s = .error "") := by
  refine ⟨rfl, ?_⟩
  intro s h0 hn
  have hnn : normalize s = "" := by
    cases hs : normalize s with
    | mk d =>
      rw [hs] at hn
      simp only at hn
      rw [show ("" : String) = String.mk [] from rfl, ← hn]
  have := parse_recur_string_unmatched s h0
  rw [hnn] at this
  exact this (by decide) (by decide) (by decide) (by decide) (by decide)

/-- Witness for C10's amended theorem at the whitespace-only phrase `" "`. -/
theorem claim_C10_amended_empty_phrase_witness :
    parse_recur_string "\t " = .error "" :=
  claim_C10_amended_empty_phrase.2 "\t " (by decide) (by decide)

/-! ## cli.py — data model

Remote (Todoist) objects as served by the cached client, local
(Taskwarrior) tasks as dictionaries, and the configuration record. -/

structure TiProject where
  id : Nat
  name : String
  parent_id : Option Nat
  deriving DecidableEq, Repr

/-- The structured `due` object of a remote task. -/
structure TiDue where
  date : String
  string : String
  is_recurring : Bool
  deriving DecidableEq, Repr

structure TiTask where
  id : Nat
  content : String
  project_id : Nat
  priority : Int
  labels : List Nat
  date_added : String
  due : Option TiDue
  checked : Nat
  deriving DecidableEq, Repr

/-- A local Taskwarrior task as a dictionary: an outer `Option` is dict-key
*presence*; for fields this tool can write back from a converted remote
value, the inner `Option`/list is the Python value (which may be `None`).
`modified` and `todoist_sync` are logical-clock readings. -/
structure TwTask where
  uuid : Nat
  description : String
  project : Option PName
  tags : Option (List PName)
  priority : Option (Option TwPrio)
  entry : Option (Option String)
  due : Option (Option String)
  recur : Option (Option String)
  status : Option String
  todoist_id : Option Nat
  todoist_sync : Option Nat
  modified : Nat
  deriving DecidableEq, Repr

/-- First-match association lookup (Python dict access on our list-encoded
dicts). -/
def alookup {α β : Type} [DecidableEq α] (l : List (α × β)) (k : α) :
    Option β :=
  (l.find? (fun kv => kv.1 = k)).map (fun kv => kv.2)

/-- The configuration record (`config['todoist']`/`config['taskwarrior']`)
plus the one interactive input `sync` can consume.

`promptRecur` is modelled from the spec: `log.prompt` and
`validation.validate_recur` live in modules not present under `src/`; per
§4.3/§4.4 the prompt re-asks until the recurrence validator (a wrapper
around recurrence-phrase parsing) accepts, so its outcome is an
already-validated canonical token or `None`, supplied here as a fixed
environment value. -/
structure Env where
  project_map : List (String × PName)
  tag_map : List (String × PName)
  project_sync : List (PName × Bool)
  promptRecur : Option String
  deriving DecidableEq, Repr

/-- The world state `sync` acts on: the remote store (server and cache
coincide — `todoist.commit()`/`todoist.sync()` are identities in this
model, and queued mutations are applied at the call that queues them),
the local Taskwarrior store, the logical clock, and a counter of
`taskwarrior.task_update` invocations. -/
structure S where
  projects : List TiProject
  items : List TiTask
  labels : List (Nat × String)
  twtasks : List TwTask
  clock : Nat
  twUpdates : Nat
  deriving DecidableEq, Repr

/-- `datetime.now()`: read the clock and advance it. -/
def tick (s : S) : Nat × S := (s.clock, { s with clock := s.clock + 1 })

def getProjectById (ps : List TiProject) (i : Nat) : Option TiProject :=
  ps.find? (fun p => p.id = i)

def getItemById (its : List TiTask) (i : Nat) : Option TiTask :=
  its.find? (fun t => t.id = i)

/-- `todoist.labels.get_by_id(l_id)['name']`: `get_by_id` returns `None`
for an unknown id and the subscript then raises. -/
def getLabelName (ls : List (Nat × String)) (i : Nat) : Except Unit String :=
  match alookup ls i with
  | some name => .ok name
  | none => .error ()

/-- `taskwarrior.task_update(tw)`: Taskwarrior persists the dictionary and
stamps a fresh `modified` time. -/
def taskUpdate (s : S) (tw : TwTask) : S :=
  let (t, s) := tick s
  { s with
    twtasks := s.twtasks.map (fun u =>
      if u.uuid = tw.uuid then { tw with modified := t } else u),
    twUpdates := s.twUpdates + 1 }

def taskDelete (s : S) (uuid : Nat) : S :=
  { s with twtasks := s.twtasks.filter (fun u => u.uuid ≠ uuid) }

/-- `taskwarrior.get_task(todoist_id=tid)`. -/
def getTaskByTid (s : S) (tid : Nat) : Option TwTask :=
  s.twtasks.find? (fun u => u.todoist_id = some tid)

/-- UUIDs are assigned by Taskwarrior; fresh means above every existing. -/
def freshUuid (s : S) : Nat :=
  (s.twtasks.map TwTask.uuid).foldr max 0 + 1

/-- Remote task ids are assigned by the Todoist server on `items.add`. -/
def freshTid (s : S) : Nat :=
  (s.items.map TiTask.id).foldr max 0 + 1

/-- `todoist.items.update(tid, ...)` with the locally mutated item: the
fields this program can have touched are `content` and `priority`. -/
def updateItemCP (s : S) (tid : Nat) (content : String) (priority : Int) : S :=
  { s with items := s.items.map (fun t =>
      if t.id = tid then { t with content := content, priority := priority }
      else t) }

/-- `todoist.items.move(tid, project_id=pid)`. -/
def moveItem (s : S) (tid : Nat) (pid : Nat) : S :=
  { s with items := s.items.map (fun t =>
      if t.id = tid then { t with project_id := pid } else t) }

/-- `todoist.items.complete` / `items.uncomplete`. -/
def setChecked (s : S) (tid : Nat) (c : Nat) : S :=
  { s with items := s.items.map (fun t =>
      if t.id = tid then { t with checked := c } else t) }

def addItem (s : S) (t : TiTask) : S := { s with items := s.items ++ [t] }

/-! ## cli.py — project index construction -/

/-- The project index: a Python dict (insertion-ordered, keys re-assigned
in place) from final hierarchical names to remote projects. -/
abbrev Idx := List (PName × TiProject)

/-- Python dict assignment `result[k] = v`: replace in place, else append. -/
def dictInsert (l : Idx) (k : PName) (v : TiProject) : Idx :=
  match l with
  | [] => [(k, v)]
  | (k', v') :: t => if k' = k then (k, v) :: t else (k', v') :: dictInsert t k v

/-- The parent-chain walk of `_ti_project_list`.  The source bug is kept
faithfully: the loop body fetches `get_by_id(p['parent_id'])` — the parent
of the *original* project `p` — instead of `pp['parent_id']`, so the walk
never advances past `p`'s direct parent.  `fuel` makes the loop a total
function: `.error ()` at every fuel means the Python loop runs forever;
`.error ()` is also the `TypeError` raised when `get_by_id` returns `None`
and the loop header subscripts it. -/
def hierLoop (projects : List TiProject) (p : TiProject) :
    Nat → TiProject → List TiProject → Except Unit (List TiProject)
  | 0, _, _ => .error ()
  | fuel + 1, pp, acc =>
    match pp.parent_id with
    | none => .ok acc
    | some _ =>
      match p.parent_id with
      | none => .error ()
      | some ppid =>
        match getProjectById projects ppid with
        | none => .error ()
        | some q => hierLoop projects p fuel q (q :: acc)

/-- `'.'.join(p['name'] for p in project_hierarchy)`. -/
def joinDots (names : List String) : String :=
  String.mk (List.intercalate ['.'] (names.map String.data))

/-- One iteration of `_ti_project_list`'s outer loop: walk the chain, join
the names root-first, translate through the project map, quote on
whitespace. -/
def projectEntry (env : Env) (projects : List TiProject) (fuel : Nat)
    (p : TiProject) : Except Unit (PName × TiProject) := do
  let hier ← hierLoop projects p fuel p [p]
  let project_name := joinDots (hier.map TiProject.name)
  .ok (maybe_quote_ws (try_map env.project_map project_name), p)

/-- `cli._ti_project_list`. -/
def _ti_project_list (env : Env) (fuel : Nat)
    (projects : List TiProject) : Except Unit Idx :=
  projects.foldlM (fun acc p => do
    let e ← projectEntry env projects fuel p
    pure (dictInsert acc e.1 e.2)) []

/-! ## cli.py — remote-task conversion to the common shape -/

/-- The common shape produced by `_convert_ti_task`. -/
structure CTask where
  tid : Nat
  description : String
  project : PName
  priority : Option TwPrio
  tags : List PName
  entry : Option String
  due : Option String
  recur : Option String
  status : String
  deriving DecidableEq, Repr

/-- The project-resolution loop of `_convert_ti_task`:
`project_name = ''` then `for project_name, p in ti_project_list.items():
if p['id'] == ...: break`.  After a full loop with no `break`, Python's
loop variable retains the *last* key; the initial `''` survives only for
an empty index. -/
def convProject : Idx → Nat → PName
  | [], _ => some ""
  | (k, p) :: rest, pid =>
    if p.id = pid then k
    else match rest with
      | [] => k
      | _ :: _ => convProject rest pid

/-- `utils.parse_due`. -/
def parse_due (due : Option TiDue) : Except Unit (Option String) :=
  match due with
  | none => .ok none
  | some d => parse_date (some d.date)

/-- `utils.parse_recur`. -/
def parse_recur (due : Option TiDue) : Except String (Option String) :=
  match due with
  | none => .ok none
  | some d => if ¬ d.is_recurring then .ok none else parse_recur_string d.string

/-- `cli.parse_recur_or_prompt`: catches `UnsupportedRecurrence` and falls
back to the interactive prompt (see `Env.promptRecur`). -/
def parse_recur_or_prompt (env : Env) (due : Option TiDue) : Option String :=
  match parse_recur due with
  | .ok r => r
  | .error _ => env.promptRecur

/-- `cli._convert_ti_task`.  Runs un-wrapped in both passes of `sync`, so
any raise here (unknown priority, unknown label, unparseable date)
propagates and aborts the whole run. -/
def _convert_ti_task (env : Env) (labels : List (Nat × String)) (idx : Idx)
    (ti : TiTask) : Except Unit CTask := do
  let priority ← ti_priority_to_tw ti.priority
  let tags ← ti.labels.mapM
    (fun lid => (getLabelName labels lid).map (try_map env.tag_map))
  let entry ← parse_date (some ti.date_added)
  let due ← parse_due ti.due
  let recur := parse_recur_or_prompt env ti.due
  pure { tid := ti.id, description := ti.content,
         project := convProject idx ti.project_id,
         priority := priority, tags := tags, entry := entry, due := due,
         recur := recur,
         status := if ti.checked = 1 then "completed" else "pending" }

/-! ## cli.py — reconciliation -/

/-- `config['taskwarrior']['project_sync']` gate: skip unless the project is
a key mapped to a truthy value. -/
def projectEnabled (env : Env) (pn : PName) : Bool :=
  match alookup env.project_sync pn with
  | some b => b
  | none => false

/-- Python truthiness of a converted optional string field (canonical
tokens and formatted dates are never empty, but `""` is modelled
faithfully as falsy). -/
def pyTruthyStrOpt (v : Option String) : Bool :=
  match v with
  | some x => x.data ≠ []
  | none => false

/-- `_compare_value('tags')`: `(ti[k] and k not in tw) or (k in tw and
tw[k] != ti[k])`; a non-empty list is truthy. -/
def cmpTags (twv : Option (List PName)) (cv : List PName) : Bool :=
  match twv with
  | none => cv ≠ []
  | some l => l ≠ cv

/-- `_compare_value('priority')`: `None` is falsy, `'L'|'M'|'H'` truthy. -/
def cmpPrio (twv : Option (Option TwPrio)) (cv : Option TwPrio) : Bool :=
  match twv with
  | none => cv.isSome
  | some v => v ≠ cv

/-- `_compare_value` on `entry`/`due`/`recur`. -/
def cmpStrOpt (twv : Option (Option String)) (cv : Option String) : Bool :=
  match twv with
  | none => pyTruthyStrOpt cv
  | some v => v ≠ cv

/-- The `changed` disjunction of `_tw_update_task`, over the eight compared
fields (direct inequality for description/project/status, `_compare_value`
for the rest); `pn`/`st` are the mandatorily-present project and status. -/
def fieldsDiffer (pn : PName) (st : String) (tw : TwTask) (c : CTask) : Bool :=
  decide (tw.description ≠ c.description) || decide (pn ≠ c.project) ||
  cmpTags tw.tags c.tags || cmpPrio tw.priority c.priority ||
  cmpStrOpt tw.entry c.entry || cmpStrOpt tw.due c.due ||
  cmpStrOpt tw.recur c.recur || decide (st ≠ c.status)

/-- `cli._tw_update_task` (the remote-authoritative pull), inside
`log.on_error`: reading a missing mandatory key (`project`, `status`)
raises before any store mutation and is swallowed, leaving the state
unchanged.  In the changed branch each differing field is overwritten from
the converted remote value (writing an equal value back for the
non-differing direct-compare fields is the identity), `todoist_sync` is
refreshed, and exactly one `task_update` is issued. -/
def _tw_update_task (s : S) (tw : TwTask) (c : CTask) : S :=
  match tw.project, tw.status with
  | some pn, some st =>
    if fieldsDiffer pn st tw c then
      let tw := { tw with
        description := c.description,
        project := some c.project,
        tags := if cmpTags tw.tags c.tags then some c.tags else tw.tags,
        priority := if cmpPrio tw.priority c.priority then some c.priority
          else tw.priority,
        entry := if cmpStrOpt tw.entry c.entry then some c.entry else tw.entry,
        due := if cmpStrOpt tw.due c.due then some c.due else tw.due,
        recur := if cmpStrOpt tw.recur c.recur then some c.recur else tw.recur,
        status := some c.status }
      let (t, s) := tick s
      taskUpdate s { tw with todoist_sync := some t }
    else s
  | _, _ => s

/-- `cli._ti_update_task` (the local-authoritative push), inside
`log.on_error`: a missing remote task, a missing mandatory local key, or a
project name absent from the index raises before any remote mutation is
committed and is swallowed.  Otherwise, on any difference the remote task
is updated (content/priority), moved on project-id mismatch, completed or
uncompleted to match, a local `waiting` status is stripped, and in *both*
branches `todoist_sync` is refreshed and the local task written back. -/
def _ti_update_task (idx : Idx) (s : S) (tw : TwTask) : S :=
  match tw.todoist_id with
  | none => s
  | some tid =>
    match getItemById s.items tid with
    | none => s
    | some ti =>
      match tw.project, tw.status with
      | some pn, some st =>
        match alookup idx pn with
        | none => s
        | some proj =>
          let priority : Int := match tw.priority with
            | none => 0
            | some p => tw_priority_to_ti p
          let changed : Bool :=
            decide (tw.description ≠ ti.content) ||
            decide (ti.project_id ≠ proj.id) ||
            decide (ti.priority ≠ priority) ||
            (decide (ti.checked = 0) && decide (st = "completed")) ||
            (decide (ti.checked = 1) && decide (st = "pending"))
          if changed then
            let s := updateItemCP s tid tw.description priority
            let s := if ti.project_id ≠ proj.id then moveItem s tid proj.id
              else s
            let s := if ti.checked = 1 ∧ st = "pending" then setChecked s tid 0
              else if ti.checked = 0 ∧ st = "completed" then setChecked s tid 1
              else s
            let tw := if ¬ (ti.checked = 1 ∧ st = "pending") ∧
                ¬ (ti.checked = 0 ∧ st = "completed") ∧ st = "waiting" then
                { tw with status := none }
              else tw
            let (t, s) := tick s
            taskUpdate s { tw with todoist_sync := some t }
          else
            let tw := if st = "waiting" then { tw with status := none } else tw
            let (t, s) := tick s
            taskUpdate s { tw with todoist_sync := some t }
      | _, _ => s

/-- `cli._sync_task`: the authoritative-side decision.  The stored stamps
are clock readings; `dateutil` parsing of their serialized forms preserves
order, so `tw_stamp > ti_stamp` is `modified > sync`. -/
def _sync_task (idx : Idx) (s : S) (tw : TwTask) (c : CTask) : S :=
  match tw.todoist_sync with
  | some tiStamp =>
    if tw.modified > tiStamp then _ti_update_task idx s tw
    else _tw_update_task s tw c
  | none => _tw_update_task s tw c

/-- `cli._tw_add_task`: create the local task from the converted remote
shape, with the remote identifier and a fresh last-synced stamp. -/
def _tw_add_task (s : S) (c : CTask) : S :=
  let uuid := freshUuid s
  let (tSync, s) := tick s
  let (tMod, s) := tick s
  { s with twtasks := s.twtasks ++ [{
      uuid := uuid, description := c.description, project := some c.project,
      tags := some c.tags, priority := some c.priority,
      entry := some c.entry, due := some c.due, recur := some c.recur,
      status := some c.status, todoist_id := some c.tid,
      todoist_sync := some tSync, modified := tMod }] }

/-- `cli._ti_add_task`, inside `log.on_error`: if the task's project is not
a known remote project name, log and abort this creation (no mutation);
otherwise create the remote task (the server assigns a fresh id, priority
defaults to 1 = unset, and the server-side `date_added` is abstracted as
`""`, which converts to an absent entry date), then write the new id and a
fresh last-synced stamp back onto the local task. -/
def _ti_add_task (idx : Idx) (s : S) (tw : TwTask) : S :=
  match tw.project with
  | none => s
  | some pn =>
    match alookup idx pn with
    | none => s
    | some proj =>
      let tid := freshTid s
      let priority : Option Int := tw.priority.map tw_priority_to_ti
      let s := addItem s
        { id := tid, content := tw.description, project_id := proj.id,
          priority := priority.getD 1, labels := [], date_added := "",
          due := none, checked := 0 }
      let (t, s) := tick s
      taskUpdate s { tw with todoist_id := some tid, todoist_sync := some t }

/-! ## cli.py — the `sync` command -/

/-- The effective project of a local task in `sync`'s passes: the stored
one, or the translated default when the `project` key is absent (the
in-memory `tw_task['project'] = default_project` assignment). -/
def effP (default : PName) (tw : TwTask) : PName :=
  match tw.project with
  | none => default
  | some x => x

/-- One iteration of the Taskwarrior→Todoist pass over the snapshot of
pending tasks: default-project assignment, enablement gate, then
delete-on-vanished / reconcile / create. -/
def pass1Step (env : Env) (idx : Idx) (default : PName) (s : S)
    (tw0 : TwTask) : Except Unit S :=
  let pn := effP default tw0
  let tw := { tw0 with project := some pn }
  if ¬ projectEnabled env pn then .ok s
  else match tw.todoist_id with
    | some tid =>
      match getItemById s.items tid with
      | none => .ok (taskDelete s tw.uuid)
      | some ti => do
        let c ← _convert_ti_task env s.labels idx ti
        pure (_sync_task idx s tw c)
    | none => .ok (_ti_add_task idx s tw)

/-- One iteration of the Todoist→Taskwarrior pass: convert, enablement gate
on the resolved project, then reconcile-or-create. -/
def pass2Step (env : Env) (idx : Idx) (default : PName) (s : S)
    (ti : TiTask) : Except Unit S := do
  let c ← _convert_ti_task env s.labels idx ti
  if ¬ projectEnabled env c.project then pure s
  else match getTaskByTid s ti.id with
    | some tw0 =>
      let pn := effP default tw0
      let tw := { tw0 with project := some pn }
      pure (_sync_task idx s tw c)
    | none => pure (_tw_add_task s c)

/-- `cli.sync`: build the project index once, compute the translated
default project, run the Taskwarrior→Todoist pass over the pending
snapshot, then the Todoist→Taskwarrior pass over the (post-pass-1) remote
tasks.  `ctx.invoke(synchronize)` and the `commit`/`sync` pairs are
identities in the server-direct model. -/
def sync (env : Env) (fuel : Nat) (s : S) : Except Unit S := do
  let idx ← _ti_project_list env fuel s.projects
  let default := try_map env.project_map "Inbox"
  let s ← (s.twtasks.filter (fun t => t.status = some "pending")).foldlM
    (pass1Step env idx default) s
  let s ← s.items.foldlM (pass2Step env idx default) s
  pure s

/-! ## Claims C2, C4, C3, C9 and the counterexample to C1 -/

/-- C2 failing input: a parent chain of depth 3. -/
def projA : TiProject := ⟨1, "A", none⟩
def projB : TiProject := ⟨2, "B", some 1⟩
def projC : TiProject := ⟨3, "C", some 2⟩
def chainProjects : List TiProject := [projA, projB, projC]
def envEmptyMaps : Env := ⟨[], [], [], none⟩

theorem hierLoop_C_stuck :
    ∀ fuel acc, hierLoop chainProjects projC fuel projB acc = .error () := by
  intro fuel
  induction fuel with
  | zero => intro acc; rfl
  | succ n ih =>
    intro acc
    simp only [hierLoop, projB, projC, chainProjects, getProjectById, projA,
      List.find?]
    exact ih _

/-- **C2** (code bug).  Project-index construction does *not* terminate for
every acyclic parent chain: for the depth-3 chain A ← B ← C the walk loops
forever (at every fuel), because the loop body re-fetches the parent of the
original project instead of the current one; chains of depth ≤ 2 do work
and produce the dot-joined root-first name. -/
theorem claim_C2_project_walk_diverges :
    (∀ fuel, _ti_project_list envEmptyMaps fuel chainProjects = .error ()) ∧
    _ti_project_list envEmptyMaps 5 [projA, projB] =
      .ok [(some "A", projA), (some "A.B", projB)] := by
  refine ⟨?_, by decide⟩
  intro fuel
  match fuel with
  | 0 => rfl
  | 1 => rfl
  | (n + 2) =>
    have hLoopA : hierLoop chainProjects projA (n+2) projA [projA] = .ok [projA] := by
      simp [hierLoop, projA]
    have hLoopB : hierLoop chainProjects projB (n+2) projB [projB] = .ok [projA, projB] := by
      simp [hierLoop, projB, projA, chainProjects, getProjectById, List.find?]
    have hLoopC : hierLoop chainProjects projC (n+2) projC [projC] = .error () := by
      simp only [hierLoop, projC, chainProjects, getProjectById, projA, projB, List.find?]
      exact hierLoop_C_stuck _ _
    have hA : projectEntry envEmptyMaps chainProjects (n+2) projA = .ok (some "A", projA) := by
      unfold projectEntry
      rw [hLoopA]; rfl
    have hB : projectEntry envEmptyMaps chainProjects (n+2) projB = .ok (some "A.B", projB) := by
      unfold projectEntry
      rw [hLoopB]; rfl
    have hC : projectEntry envEmptyMaps chainProjects (n+2) projC = .error () := by
      unfold projectEntry
      rw [hLoopC]; rfl
    simp only [chainProjects] at hA hB hC
    unfold _ti_project_list
    simp only [chainProjects, List.foldlM, hA, hB, hC]
    rfl

/-- Inversion for `Except.bind` succeeding. -/
theorem except_bind_ok {e a b : Type} {x : Except e a} {f : a → Except e b}
    {v : b} (h : x.bind f = .ok v) : ∃ u, x = .ok u ∧ f u = .ok v := by
  cases x with
  | error err => simp [Except.bind] at h
  | ok u => exact ⟨u, rfl, by simpa [Except.bind] using h⟩

def idxC4 : Idx := [(some "a", ⟨1, "a", none⟩), (some "b", ⟨2, "b", none⟩)]
def tiC4 : TiTask := ⟨7, "x", 5, 1, [], "", none, 0⟩

/-- **C4, counterexample.** Conversion of a remote task whose project id
matches nothing in a non-empty index resolves to the *last* index key
(Python's loop variable after a full loop), not the empty string. -/
theorem claim_C4_counterexample :
    _convert_ti_task envEmptyMaps [] idxC4 tiC4 =
      .ok ⟨7, "x", some "b", none, [], none, none, none, "pending"⟩ ∧
    (some "b" : PName) ≠ some "" := by decide

theorem convProject_first_match (idx : Idx) (pid : Nat) (e : PName × TiProject)
    (h : idx.find? (fun x => x.2.id = pid) = some e) :
    convProject idx pid = e.1 := by
  induction idx with
  | nil => simp at h
  | cons kp t ih =>
    obtain ⟨k, p⟩ := kp
    by_cases hp : p.id = pid
    · simp [List.find?, hp] at h
      simp [convProject, hp, ← h]
    · simp [List.find?, hp] at h
      cases t with
      | nil => simp at h
      | cons x xs =>
        simp [convProject, hp]
        exact ih h

theorem convProject_no_match (idx : Idx) (pid : Nat)
    (h : ∀ e ∈ idx, TiProject.id e.2 ≠ pid) :
    convProject idx pid = ((idx.getLast?).map Prod.fst).getD (some "") := by
  induction idx with
  | nil => rfl
  | cons kp t ih =>
    obtain ⟨k, p⟩ := kp
    have hp : p.id ≠ pid := h (k, p) (by simp)
    have ht : ∀ e ∈ t, TiProject.id e.2 ≠ pid := fun e he => h e (by simp [he])
    cases t with
    | nil => simp [convProject, hp, List.getLast?]
    | cons x xs =>
      rw [show convProject ((k, p) :: x :: xs) pid = convProject (x :: xs) pid from by
        simp [convProject, hp]]
      rw [ih ht]
      simp [List.getLast?]

/-- **C4, amended.** The project name assigned is that of the first index
entry whose project id matches; when no entry matches, it is the *last*
index key (or the empty string only for an empty index); and
`_convert_ti_task` assigns exactly this resolution. -/
theorem claim_C4_amended_project_resolution :
    (∀ (idx : Idx) (pid : Nat) (e : PName × TiProject),
      idx.find? (fun x => x.2.id = pid) = some e →
      convProject idx pid = e.1) ∧
    (∀ (idx : Idx) (pid : Nat), (∀ e ∈ idx, TiProject.id e.2 ≠ pid) →
      convProject idx pid = ((idx.getLast?).map Prod.fst).getD (some "")) ∧
    (∀ (env : Env) (labels : List (Nat × String)) (idx : Idx) (ti : TiTask)
      (c : CTask), _convert_ti_task env labels idx ti = .ok c →
      c.project = convProject idx ti.project_id) := by
  refine ⟨convProject_first_match, convProject_no_match, ?_⟩
  intro env labels idx ti c h
  unfold _convert_ti_task at h
  obtain ⟨pr, h1, h⟩ := except_bind_ok h
  obtain ⟨tags, h2, h⟩ := except_bind_ok h
  obtain ⟨entry, h3, h⟩ := except_bind_ok h
  obtain ⟨due, h4, h⟩ := except_bind_ok h
  simp only [pure, Except.pure, Except.ok.injEq] at h
  rw [← h]

/-- Witness for C4 amended: first-match and last-key fallback at `idxC4`. -/
theorem claim_C4_amended_project_resolution_witness :
    convProject idxC4 2 = some "b" ∧
    convProject idxC4 9 = some "b" :=
  ⟨claim_C4_amended_project_resolution.1 idxC4 2 (some "b", ⟨2, "b", none⟩)
      (by decide),
   claim_C4_amended_project_resolution.2.1 idxC4 9 (by decide)⟩

theorem taskUpdate_items (s : S) (tw : TwTask) : (taskUpdate s tw).items = s.items := rfl

theorem taskUpdate_projects (s : S) (tw : TwTask) : (taskUpdate s tw).projects = s.projects := rfl

/-- **C3.** For a task with a last-synced stamp, reconciliation pushes
(local-authoritative `_ti_update_task`) exactly when `modified` is strictly
later than the stamp, and otherwise — including when there is no stamp at
all — pulls via `_tw_update_task`, which never mutates the remote store. -/
theorem claim_C3_authoritative_side (idx : Idx) (s : S) (tw : TwTask) (c : CTask) :
    (∀ t, tw.todoist_sync = some t →
      ((t < tw.modified → _sync_task idx s tw c = _ti_update_task idx s tw) ∧
       (tw.modified ≤ t → _sync_task idx s tw c = _tw_update_task s tw c))) ∧
    (tw.todoist_sync = none → _sync_task idx s tw c = _tw_update_task s tw c) ∧
    (_tw_update_task s tw c).items = s.items ∧
    (_tw_update_task s tw c).projects = s.projects := by
  refine ⟨?_, ?_, ?_, ?_⟩
  · intro t ht
    constructor
    · intro hlt
      simp [_sync_task, ht, hlt]
    · intro hle
      simp [_sync_task, ht, Nat.not_lt.mpr hle]
  · intro ht
    simp [_sync_task, ht]
  · unfold _tw_update_task
    cases tw.project <;> cases tw.status <;> simp
    split
    · exact taskUpdate_items _ _
    · rfl
  · unfold _tw_update_task
    cases tw.project <;> cases tw.status <;> simp
    split
    · exact taskUpdate_projects _ _
    · rfl

def idx0 : Idx := []
def s0Idle : S := ⟨[], [], [], [], 0, 0⟩
def twPush : TwTask :=
  ⟨1, "d", some (some "p"), none, none, none, none, none, some "pending", some 1, some 5, 10⟩
def twPull : TwTask :=
  ⟨1, "d", some (some "p"), none, none, none, none, none, some "pending", some 1, some 20, 10⟩
def cAny : CTask := ⟨1, "d", some "p", none, [], none, none, none, "pending"⟩

theorem claim_C3_authoritative_side_witness :
    _sync_task idx0 s0Idle twPush cAny = _ti_update_task idx0 s0Idle twPush ∧
    _sync_task idx0 s0Idle twPull cAny = _tw_update_task s0Idle twPull cAny :=
  ⟨((claim_C3_authoritative_side idx0 s0Idle twPush cAny).1 5 rfl).1 (by decide),
   ((claim_C3_authoritative_side idx0 s0Idle twPull cAny).1 20 rfl).2 (by decide)⟩

/-- Replacing the tasks matching a uuid leaves the first match at its
position, now holding the replacement. -/
theorem find?_map_replace (l : List TwTask) (u : Nat) (nt : TwTask)
    (hm : (l.find? (fun x => x.uuid = u)).isSome) (hnt : nt.uuid = u) :
    (l.map (fun x => if x.uuid = u then nt else x)).find?
      (fun x => x.uuid = u) = some nt := by
  induction l with
  | nil => simp at hm
  | cons a t ih =>
    by_cases ha : a.uuid = u
    · simp [List.find?, ha, hnt]
    · simp only [List.map_cons, if_neg ha]
      rw [List.find?_cons_of_neg _ (by simpa using ha)]
      refine ih ?_
      rw [List.find?_cons_of_neg _ (by simpa using ha)] at hm
      exact hm

/-- **C9.** In the remote-authoritative pull: if none of the eight compared
fields differs, no local update is issued and the state (including the
last-synced stamp) is untouched; if at least one differs, exactly one
`task_update` is issued and the written task carries a freshly read
last-synced stamp. -/
theorem claim_C9_pull_update_discipline (s : S) (tw : TwTask) (c : CTask)
    (pn : PName) (st : String) (hp : tw.project = some pn)
    (hs : tw.status = some st)
    (hm : (s.twtasks.find? (fun x => x.uuid = tw.uuid)).isSome) :
    (fieldsDiffer pn st tw c = false → _tw_update_task s tw c = s) ∧
    (fieldsDiffer pn st tw c = true →
      (_tw_update_task s tw c).twUpdates = s.twUpdates + 1 ∧
      ∃ tw', (_tw_update_task s tw c).twtasks.find?
          (fun x => x.uuid = tw.uuid) = some tw' ∧
        tw'.todoist_sync = some s.clock ∧ tw'.modified = s.clock + 1) := by
  constructor
  · intro hf
    simp [_tw_update_task, hp, hs, hf]
  · intro hf
    unfold _tw_update_task
    rw [hp, hs]
    simp only [hf, if_true]
    exact ⟨rfl, ⟨_, find?_map_replace _ _ _ hm rfl, rfl, rfl⟩⟩

def sC9 : S := ⟨[], [], [], [twPull], 0, 0⟩
def cDiff : CTask := ⟨1, "changed", some "p", none, [], none, none, none, "pending"⟩

theorem claim_C9_pull_update_discipline_witness :
    _tw_update_task sC9 twPull cAny = sC9 ∧
    (_tw_update_task sC9 twPull cDiff).twUpdates = sC9.twUpdates + 1 :=
  ⟨(claim_C9_pull_update_discipline sC9 twPull cAny (some "p") "pending"
      rfl rfl (by decide)).1 (by decide),
   ((claim_C9_pull_update_discipline sC9 twPull cDiff (some "p") "pending"
      rfl rfl (by decide)).2 (by decide)).1⟩

/-- C1 counterexample data: one pending local task in the enabled project
"work", which does not exist on the remote side. -/
def envCE : Env := ⟨[], [], [(some "work", true)], none⟩
def twCE : TwTask :=
  ⟨1, "t", some (some "work"), none, none, none, none, none, some "pending",
   none, none, 0⟩
def sCE : S := ⟨[], [], [], [twCE], 0, 0⟩

/-- **C1, counterexample.** With project "work" enabled in the
configuration but absent from the remote project index, remote-side
creation silently aborts each run: running `sync` twice creates nothing
(the claim's deduplication holds here), but on the second run the pending
local task in the enabled project still carries *no* remote-identifier
field — refuting the claim's "every local pending task in an enabled
project already carries a remote-identifier field". -/
theorem claim_C1_counterexample :
    sync envCE 10 sCE = .ok sCE ∧
    (sync envCE 10 sCE).bind (sync envCE 10) = .ok sCE ∧
    twCE ∈ sCE.twtasks ∧ twCE.status = some "pending" ∧
    twCE.project = some (some "work") ∧
    projectEnabled envCE (some "work") = true ∧
    twCE.todoist_id = none := by
  exact ⟨by decide, by decide, by decide, rfl, rfl, rfl, rfl⟩

end TodoistTW

namespace TodoistTW

/-! ## Infrastructure for the C1 deduplication theorem -/

/-- Some local task carries this remote identifier. -/
def HasTid (l : List TwTask) (i : Nat) : Prop :=
  ∃ u ∈ l, u.todoist_id = some i

/-- The items list changed at most at the tasks with remote id `tid`, by an
id-preserving edit. -/
def ItemsTargeted (tid : Nat) (l l' : List TiTask) : Prop :=
  ∃ g : TiTask → TiTask, (∀ t, (g t).id = t.id) ∧
    l' = l.map (fun t => if t.id = tid then g t else t)

theorem ItemsTargeted.refl {tid : Nat} {l : List TiTask} :
    ItemsTargeted tid l l :=
  ⟨id, fun _ => rfl, by simp⟩

theorem ItemsTargeted.trans {tid : Nat} {l l' l'' : List TiTask}
    (h1 : ItemsTargeted tid l l') (h2 : ItemsTargeted tid l' l'') :
    ItemsTargeted tid l l'' := by
  obtain ⟨g1, hg1, rfl⟩ := h1
  obtain ⟨g2, hg2, rfl⟩ := h2
  refine ⟨g2 ∘ g1, fun t => by simp [hg2, hg1], ?_⟩
  rw [List.map_map]
  apply List.map_congr_left
  intro t _
  by_cases ht : t.id = tid
  · simp [ht, hg1]
  · simp [ht]

theorem ItemsTargeted.map_id {tid : Nat} {l l' : List TiTask}
    (h : ItemsTargeted tid l l') : l'.map TiTask.id = l.map TiTask.id := by
  obtain ⟨g, hg, rfl⟩ := h
  rw [List.map_map]
  apply List.map_congr_left
  intro t _
  by_cases ht : t.id = tid <;> simp [ht, hg]

theorem ItemsTargeted.getItemById_ne {tid : Nat} {l l' : List TiTask}
    (h : ItemsTargeted tid l l') (j : Nat) (hj : j ≠ tid) :
    getItemById l' j = getItemById l j := by
  obtain ⟨g, hg, rfl⟩ := h
  induction l with
  | nil => rfl
  | cons t ts ih =>
    by_cases ht : t.id = tid
    · have : ¬ (t.id = j) := by rw [ht]; exact fun hh => hj hh.symm
      simp only [List.map_cons, if_pos ht]
      rw [getItemById, List.find?_cons_of_neg _ (by simp [hg, this]),
        getItemById, List.find?_cons_of_neg _ (by simp [this])]
      exact ih
    · simp only [List.map_cons, if_neg ht]
      by_cases hj' : t.id = j
      · rw [getItemById, List.find?_cons_of_pos _ (by simp [hj']),
          getItemById, List.find?_cons_of_pos _ (by simp [hj'])]
      · rw [getItemById, List.find?_cons_of_neg _ (by simp [hj']),
          getItemById, List.find?_cons_of_neg _ (by simp [hj'])]
        exact ih

/-- The local-task list changed at most at uuid `u0.uuid`, by replacement
with a task carrying the same uuid and remote id. -/
def TwShape (u0 : TwTask) (l l' : List TwTask) : Prop :=
  l' = l ∨ ∃ nt : TwTask, nt.uuid = u0.uuid ∧ nt.todoist_id = u0.todoist_id ∧
    l' = l.map (fun u => if u.uuid = u0.uuid then nt else u)

theorem TwShape.map_uuid {u0 : TwTask} {l l' : List TwTask}
    (h : TwShape u0 l l') : l'.map TwTask.uuid = l.map TwTask.uuid := by
  rcases h with rfl | ⟨nt, hu, _, rfl⟩
  · rfl
  · rw [List.map_map]
    apply List.map_congr_left
    intro u _
    by_cases huu : u.uuid = u0.uuid <;> simp [huu, hu]

theorem TwShape.hasTid {u0 : TwTask} {l l' : List TwTask}
    (h : TwShape u0 l l')
    (hcons : ∀ u ∈ l, u.uuid = u0.uuid → u.todoist_id = u0.todoist_id)
    {i : Nat} (hi : HasTid l i) : HasTid l' i := by
  rcases h with rfl | ⟨nt, hu, hid, rfl⟩
  · exact hi
  · obtain ⟨u, hul, huid⟩ := hi
    by_cases huu : u.uuid = u0.uuid
    · refine ⟨nt, ?_, ?_⟩
      · have := List.mem_map_of_mem (fun u => if u.uuid = u0.uuid then nt else u) hul
        simpa [huu] using this
      · rw [hid, ← hcons u hul huu, huid]
    · refine ⟨u, ?_, huid⟩
      have := List.mem_map_of_mem (fun u => if u.uuid = u0.uuid then nt else u) hul
      simpa [huu] using this

/-- Members of the replaced list at other uuids are unchanged members. -/
theorem TwShape.mem_ne {u0 : TwTask} {l l' : List TwTask}
    (h : TwShape u0 l l') {u : TwTask} (hu : u ∈ l) (hne : u.uuid ≠ u0.uuid) :
    u ∈ l' := by
  rcases h with rfl | ⟨nt, _, _, rfl⟩
  · exact hu
  · have := List.mem_map_of_mem (fun u => if u.uuid = u0.uuid then nt else u) hu
    simpa [hne] using this

theorem TwShape.mem_inv {u0 : TwTask} {l l' : List TwTask}
    (h : TwShape u0 l l') {u : TwTask} (hu : u ∈ l') :
    u ∈ l ∨ (u.uuid = u0.uuid ∧ u.todoist_id = u0.todoist_id) := by
  rcases h with rfl | ⟨nt, hnu, hnid, rfl⟩
  · exact Or.inl hu
  · obtain ⟨v, hv, hvu⟩ := List.mem_map.mp hu
    by_cases hvv : v.uuid = u0.uuid
    · right
      rw [if_pos hvv] at hvu
      subst hvu
      exact ⟨hnu, hnid⟩
    · left
      rw [if_neg hvv] at hvu
      subst hvu
      exact hv


/-- Erased view of the local store: uuid and remote id of every task. -/
def twPairs (l : List TwTask) : List (Nat × Option Nat) :=
  l.map (fun u => (u.uuid, u.todoist_id))

/-- Some pair carries remote identifier `i`. -/
def PairsTid (P : List (Nat × Option Nat)) (i : Nat) : Prop :=
  ∃ p ∈ P, p.2 = some i

theorem hasTid_iff_pairs {l : List TwTask} {i : Nat} :
    HasTid l i ↔ PairsTid (twPairs l) i := by
  constructor
  · rintro ⟨u, hu, hid⟩
    exact ⟨(u.uuid, u.todoist_id), List.mem_map_of_mem _ hu, hid⟩
  · rintro ⟨p, hp, hid⟩
    obtain ⟨u, hu, rfl⟩ := List.mem_map.mp hp
    exact ⟨u, hu, hid⟩

theorem TwShape.pairs {u0 : TwTask} {l l' : List TwTask}
    (h : TwShape u0 l l')
    (hcons : ∀ u ∈ l, u.uuid = u0.uuid → u.todoist_id = u0.todoist_id) :
    twPairs l' = twPairs l := by
  rcases h with rfl | ⟨nt, hu, hid, rfl⟩
  · rfl
  · unfold twPairs
    rw [List.map_map]
    apply List.map_congr_left
    intro u hul
    by_cases huu : u.uuid = u0.uuid
    · simp only [Function.comp, huu, if_pos]
      rw [hcons u hul huu, hu, hid]
    · simp [Function.comp, huu]

theorem ItemsTargeted.mem_orig {tid : Nat} {l l' : List TiTask}
    (h : ItemsTargeted tid l l') {t : TiTask} (ht : t ∈ l') :
    t ∈ l ∨ t.id = tid := by
  obtain ⟨g, hg, rfl⟩ := h
  obtain ⟨v, hv, hvt⟩ := List.mem_map.mp ht
  by_cases hvv : v.id = tid
  · right
    rw [if_pos hvv] at hvt
    rw [← hvt, hg, hvv]
  · left
    rw [if_neg hvv] at hvt
    rw [← hvt]
    exact hv

/-- With distinct mapped keys, a member is THE result of `find?` by its key. -/
theorem find?_self_of_nodup {α β : Type} [DecidableEq β] (f : α → β)
    (l : List α) (hU : (l.map f).Nodup) {u : α} (hu : u ∈ l) :
    l.find? (fun x => f x = f u) = some u := by
  induction l with
  | nil => simp at hu
  | cons a t ih =>
    rcases List.mem_cons.mp hu with rfl | hut
    · exact List.find?_cons_of_pos _ (by simp)
    · have ha : f a ≠ f u := by
        intro hfa
        have : f u ∈ t.map f := List.mem_map_of_mem f hut
        rw [← hfa] at this
        exact (List.nodup_cons.mp hU).1 this
      rw [List.find?_cons_of_neg _ (by simpa using ha)]
      exact ih (List.nodup_cons.mp hU).2 hut

theorem getTaskByTid_isSome {s : S} {i : Nat} (h : HasTid s.twtasks i) :
    ∃ tw0, getTaskByTid s i = some tw0 ∧ tw0.todoist_id = some i ∧
      tw0 ∈ s.twtasks := by
  obtain ⟨u, hu, hid⟩ := h
  have : (s.twtasks.find? (fun x => x.todoist_id = some i)).isSome := by
    rw [List.find?_isSome]
    exact ⟨u, hu, by simp [hid]⟩
  obtain ⟨tw0, htw0⟩ := Option.isSome_iff_exists.mp this
  refine ⟨tw0, htw0, ?_, List.mem_of_find?_eq_some htw0⟩
  have := List.find?_some htw0
  simpa using this

theorem getItemById_isSome_of_mem {l : List Nat} {its : List TiTask} {i : Nat}
    (hids : its.map TiTask.id = l) (hi : i ∈ l) :
    ∃ ti, getItemById its i = some ti := by
  subst hids
  obtain ⟨ti, hti, rfl⟩ := List.mem_map.mp hi
  have : (its.find? (fun t => t.id = ti.id)).isSome := by
    rw [List.find?_isSome]
    exact ⟨ti, hti, by simp⟩
  obtain ⟨t0, ht0⟩ := Option.isSome_iff_exists.mp this
  exact ⟨t0, ht0⟩

theorem le_foldr_max (l : List Nat) : ∀ i ∈ l, i ≤ l.foldr max 0 := by
  intro i hi
  induction l with
  | nil => simp at hi
  | cons a t ih =>
    rcases List.mem_cons.mp hi with rfl | hit
    · simp [List.foldr]
    · exact le_trans (ih hit) (by simp [List.foldr])

theorem freshTid_not_mem (s : S) : freshTid s ∉ s.items.map TiTask.id := by
  intro hmem
  have h1 := le_foldr_max _ _ hmem
  unfold freshTid at h1
  omega

theorem freshUuid_not_mem (s : S) : freshUuid s ∉ s.twtasks.map TwTask.uuid := by
  intro hmem
  have h1 := le_foldr_max _ _ hmem
  unfold freshUuid at h1
  omega


/-! Shape lemmas for the reconciliation operations. -/

theorem updateItemCP_targeted (s : S) (tid : Nat) (cnt : String) (pr : Int) :
    ItemsTargeted tid s.items (updateItemCP s tid cnt pr).items :=
  ⟨fun t => { t with content := cnt, priority := pr }, fun _ => rfl, rfl⟩

theorem moveItem_targeted (s : S) (tid pid : Nat) :
    ItemsTargeted tid s.items (moveItem s tid pid).items :=
  ⟨fun t => { t with project_id := pid }, fun _ => rfl, rfl⟩

theorem setChecked_targeted (s : S) (tid c : Nat) :
    ItemsTargeted tid s.items (setChecked s tid c).items :=
  ⟨fun t => { t with checked := c }, fun _ => rfl, rfl⟩

theorem taskUpdate_shape (s : S) (tw0 nt : TwTask) (hu : nt.uuid = tw0.uuid)
    (hid : nt.todoist_id = tw0.todoist_id) :
    TwShape tw0 s.twtasks (taskUpdate s nt).twtasks := by
  refine Or.inr ⟨{ nt with modified := s.clock }, hu, hid, ?_⟩
  show s.twtasks.map
      (fun u => if u.uuid = nt.uuid then { nt with modified := s.clock } else u) =
    s.twtasks.map
      (fun u => if u.uuid = tw0.uuid then { nt with modified := s.clock } else u)
  simp only [hu]

theorem tw_update_shape (s : S) (tw : TwTask) (c : CTask) :
    (_tw_update_task s tw c).projects = s.projects ∧
    (_tw_update_task s tw c).labels = s.labels ∧
    (_tw_update_task s tw c).items = s.items ∧
    TwShape tw s.twtasks (_tw_update_task s tw c).twtasks := by
  unfold _tw_update_task
  cases hp : tw.project with
  | none => exact ⟨rfl, rfl, rfl, Or.inl rfl⟩
  | some pn =>
    cases hs : tw.status with
    | none => exact ⟨rfl, rfl, rfl, Or.inl rfl⟩
    | some st =>
      by_cases hf : fieldsDiffer pn st tw c = true
      · simp only [hf, if_true]
        exact ⟨rfl, rfl, rfl, taskUpdate_shape _ tw _ rfl rfl⟩
      · simp only [Bool.not_eq_true] at hf
        simp only [hf, Bool.false_eq_true, if_false]
        exact ⟨by trivial, by trivial, by trivial, Or.inl (by trivial)⟩

theorem ti_update_shape (idx : Idx) (s : S) (tw : TwTask) :
    (_ti_update_task idx s tw).projects = s.projects ∧
    (_ti_update_task idx s tw).labels = s.labels ∧
    TwShape tw s.twtasks (_ti_update_task idx s tw).twtasks ∧
    ((_ti_update_task idx s tw).items = s.items ∨
      ∃ tid, tw.todoist_id = some tid ∧
        ItemsTargeted tid s.items (_ti_update_task idx s tw).items) := by
  unfold _ti_update_task
  cases hid : tw.todoist_id with
  | none => exact ⟨rfl, rfl, Or.inl rfl, Or.inl rfl⟩
  | some tid =>
    dsimp only
    cases hitem : getItemById s.items tid with
    | none => exact ⟨rfl, rfl, Or.inl rfl, Or.inl rfl⟩
    | some ti =>
      dsimp only
      cases hp : tw.project with
      | none => exact ⟨rfl, rfl, Or.inl rfl, Or.inl rfl⟩
      | some pn =>
        cases hs : tw.status with
        | none => exact ⟨rfl, rfl, Or.inl rfl, Or.inl rfl⟩
        | some st =>
          dsimp only
          cases hlook : alookup idx pn with
          | none => exact ⟨rfl, rfl, Or.inl rfl, Or.inl rfl⟩
          | some proj =>
            dsimp only
            split
            · -- changed: update, conditional move, conditional (un)complete,
              -- conditional waiting-strip, then write-back
              repeat' split
              all_goals
                refine ⟨rfl, rfl, taskUpdate_shape _ tw _ rfl (by simp [hid]),
                  Or.inr ⟨tid, rfl, ?_⟩⟩
              all_goals
                first
                | exact updateItemCP_targeted s tid _ _
                | exact ItemsTargeted.trans (updateItemCP_targeted s tid _ _)
                    (moveItem_targeted _ tid _)
                | exact ItemsTargeted.trans (updateItemCP_targeted s tid _ _)
                    (setChecked_targeted _ tid _)
                | exact ItemsTargeted.trans
                    (ItemsTargeted.trans (updateItemCP_targeted s tid _ _)
                      (moveItem_targeted _ tid _))
                    (setChecked_targeted _ tid _)
            · -- unchanged: waiting-strip then write-back of the sync stamp
              split <;>
                exact ⟨rfl, rfl, taskUpdate_shape _ tw _ rfl (by simp [hid]), Or.inl rfl⟩

theorem sync_task_shape (idx : Idx) (s : S) (tw : TwTask) (c : CTask) :
    (_sync_task idx s tw c).projects = s.projects ∧
    (_sync_task idx s tw c).labels = s.labels ∧
    TwShape tw s.twtasks (_sync_task idx s tw c).twtasks ∧
    ((_sync_task idx s tw c).items = s.items ∨
      ∃ tid, tw.todoist_id = some tid ∧
        ItemsTargeted tid s.items (_sync_task idx s tw c).items) := by
  unfold _sync_task
  cases hsync : tw.todoist_sync with
  | none =>
    obtain ⟨h1, h2, h3, h4⟩ := tw_update_shape s tw c
    exact ⟨h1, h2, h4, Or.inl h3⟩
  | some t =>
    by_cases hgt : tw.modified > t
    · simp only [if_pos hgt]
      exact ti_update_shape idx s tw
    · simp only [if_neg hgt]
      obtain ⟨h1, h2, h3, h4⟩ := tw_update_shape s tw c
      exact ⟨h1, h2, h4, Or.inl h3⟩

theorem tw_add_task_spec (s : S) (c : CTask) :
    (_tw_add_task s c).projects = s.projects ∧
    (_tw_add_task s c).labels = s.labels ∧
    (_tw_add_task s c).items = s.items ∧
    ∃ nt : TwTask, nt.uuid = freshUuid s ∧ nt.todoist_id = some c.tid ∧
      (_tw_add_task s c).twtasks = s.twtasks ++ [nt] :=
  ⟨rfl, rfl, rfl, ⟨_, rfl, rfl, rfl⟩⟩

theorem ti_add_task_spec (idx : Idx) (s : S) (tw : TwTask) :
    (_ti_add_task idx s tw = s ∧
      (∀ pn, tw.project = some pn → alookup idx pn = none)) ∨
    ((∃ pn proj, tw.project = some pn ∧ alookup idx pn = some proj) ∧
      (_ti_add_task idx s tw).projects = s.projects ∧
      (_ti_add_task idx s tw).labels = s.labels ∧
      (_ti_add_task idx s tw).items.map TiTask.id =
        s.items.map TiTask.id ++ [freshTid s] ∧
      ∃ nt : TwTask, nt.uuid = tw.uuid ∧ nt.todoist_id = some (freshTid s) ∧
        (_ti_add_task idx s tw).twtasks = s.twtasks.map
          (fun u => if u.uuid = tw.uuid then nt else u)) := by
  unfold _ti_add_task
  cases hp : tw.project with
  | none => exact Or.inl ⟨rfl, by intro pn h; cases h⟩
  | some pn =>
    dsimp only
    cases hlook : alookup idx pn with
    | none =>
      refine Or.inl ⟨rfl, ?_⟩
      intro pn' h
      obtain rfl : pn = pn' := by injection h
      exact hlook
    | some proj =>
      refine Or.inr ⟨⟨pn, proj, rfl, hlook⟩, rfl, rfl,
        by simp [taskUpdate, tick, addItem], ?_⟩
      refine ⟨_, ?_, ?_, rfl⟩
      · rfl
      · rfl

theorem taskDelete_spec (s : S) (u0 : Nat) :
    (taskDelete s u0).projects = s.projects ∧
    (taskDelete s u0).labels = s.labels ∧
    (taskDelete s u0).items = s.items ∧
    (taskDelete s u0).twtasks = s.twtasks.filter (fun u => u.uuid ≠ u0) :=
  ⟨rfl, rfl, rfl, rfl⟩

/-! Generic key-uniqueness lemmas. -/

theorem nodup_key_eq {α β : Type} (key : α → β) (l : List α)
    (hN : (l.map key).Nodup) {u v : α} (hu : u ∈ l) (hv : v ∈ l)
    (h : key u = key v) : u = v := by
  induction l with
  | nil => simp at hu
  | cons a t ih =>
    rcases List.mem_cons.mp hu with rfl | hut
    · rcases List.mem_cons.mp hv with rfl | hvt
      · rfl
      · exfalso
        apply (List.nodup_cons.mp hN).1
        rw [h]
        exact List.mem_map_of_mem key hvt
    · rcases List.mem_cons.mp hv with rfl | hvt
      · exfalso
        apply (List.nodup_cons.mp hN).1
        rw [← h]
        exact List.mem_map_of_mem key hut
      · exact ih (List.nodup_cons.mp hN).2 hut hvt

theorem twPairs_fst (l : List TwTask) :
    (twPairs l).map Prod.fst = l.map TwTask.uuid := by
  simp [twPairs, List.map_map]

/-- The invariant a first `sync` run establishes on a local task: if it is
pending and its effective project is enabled, then either it already
carries a remote id pointing at an existing remote task, or its project
name is unknown to the project index (so remote creation aborts). -/
def GoodTw (env : Env) (idx : Idx) (default : PName) (itemIds : List Nat)
    (u : TwTask) : Prop :=
  u.status = some "pending" →
  projectEnabled env (effP default u) = true →
  (u.todoist_id = none → alookup idx (effP default u) = none) ∧
  (∀ tid, u.todoist_id = some tid → tid ∈ itemIds)

/-- A second-run pass-1 step neither creates nor deletes on either side:
the remote item ids and the local (uuid, remote-id) pairs are untouched,
and any item edited came from an already-linked local task. -/
theorem pass1Step_frozen (env : Env) (idx : Idx) (default : PName)
    {itemIds : List Nat} {basePairs : List (Nat × Option Nat)}
    (hNF : (basePairs.map Prod.fst).Nodup)
    {s : S} {tw0 : TwTask} {s₁ : S}
    (hids : s.items.map TiTask.id = itemIds)
    (hpairs : twPairs s.twtasks = basePairs)
    (hQ : GoodTw env idx default itemIds tw0)
    (hpend : tw0.status = some "pending")
    (hmemP : (tw0.uuid, tw0.todoist_id) ∈ basePairs)
    (hstep : pass1Step env idx default s tw0 = .ok s₁) :
    s₁.items.map TiTask.id = itemIds ∧ twPairs s₁.twtasks = basePairs ∧
    s₁.labels = s.labels ∧ s₁.projects = s.projects ∧
    ∀ t ∈ s₁.items, t ∈ s.items ∨ PairsTid basePairs t.id := by
  unfold pass1Step at hstep
  dsimp only at hstep
  by_cases he : projectEnabled env (effP default tw0) = true
  · rw [if_neg (not_not_intro he)] at hstep
    cases hid : tw0.todoist_id with
    | some tid =>
      rw [hid] at hstep
      dsimp only at hstep
      have htid : tid ∈ itemIds := (hQ hpend he).2 tid hid
      obtain ⟨ti, hti⟩ := getItemById_isSome_of_mem hids htid
      rw [hti] at hstep
      dsimp only at hstep
      obtain ⟨c, hc, hpure⟩ := except_bind_ok hstep
      have hs₁ : s₁ = _sync_task idx s
          { tw0 with project := some (effP default tw0),
                     todoist_id := some tid } c := by
        have := hpure
        simp only [pure, Except.pure, Except.ok.injEq] at this
        exact this.symm
      subst hs₁
      obtain ⟨hproj, hlab, hshape, hitems⟩ := sync_task_shape idx s
        { tw0 with project := some (effP default tw0), todoist_id := some tid } c
      have hcons : ∀ u ∈ s.twtasks, u.uuid = tw0.uuid →
          u.todoist_id = some tid := by
        intro u hu huu
        have h1 : (u.uuid, u.todoist_id) ∈ basePairs := by
          rw [← hpairs]
          exact List.mem_map_of_mem _ hu
        have h2 := nodup_key_eq Prod.fst basePairs hNF h1 hmemP (by simpa using huu)
        have h3 := congrArg Prod.snd h2
        simp only at h3
        rw [h3, hid]
      refine ⟨?_, ?_, hlab, hproj, ?_⟩
      · rcases hitems with heq | ⟨tid', hid', htarg⟩
        · rw [heq, hids]
        · rw [htarg.map_id, hids]
      · rw [hshape.pairs hcons, hpairs]
      · rcases hitems with heq | ⟨tid', hid', htarg⟩
        · intro t ht
          rw [heq] at ht
          exact Or.inl ht
        · intro t ht
          rcases htarg.mem_orig ht with h | h
          · exact Or.inl h
          · refine Or.inr ⟨(tw0.uuid, tw0.todoist_id), hmemP, ?_⟩
            have h3 : tid = tid' := by
              simpa using hid'
            show tw0.todoist_id = some t.id
            rw [hid, h, ← h3]
    | none =>
      rw [hid] at hstep
      dsimp only at hstep
      have hs₁ : s₁ = _ti_add_task idx s
          { tw0 with project := some (effP default tw0), todoist_id := none } := by
        have := hstep
        simp only [Except.ok.injEq] at this
        exact this.symm
      subst hs₁
      rcases ti_add_task_spec idx s
          { tw0 with project := some (effP default tw0), todoist_id := none } with
        ⟨heq, _⟩ | ⟨⟨pn', proj, hp', hlook⟩, _⟩
      · rw [heq]
        exact ⟨hids, hpairs, rfl, rfl, fun t ht => Or.inl ht⟩
      · exfalso
        have hA := (hQ hpend he).1 hid
        have hpn : effP default tw0 = pn' := by
          injection hp'
        rw [← hpn] at hlook
        rw [hA] at hlook
        cases hlook
  · rw [if_pos he] at hstep
    have hs₁ : s₁ = s := by
      have := hstep
      simp only [Except.ok.injEq] at this
      exact this.symm
    subst hs₁
    exact ⟨hids, hpairs, rfl, rfl, fun t ht => Or.inl ht⟩

theorem pass1_fold_frozen (env : Env) (idx : Idx) (default : PName)
    {itemIds : List Nat} {basePairs : List (Nat × Option Nat)}
    (hNF : (basePairs.map Prod.fst).Nodup) (l : List TwTask) :
    ∀ (s s' : S),
    s.items.map TiTask.id = itemIds →
    twPairs s.twtasks = basePairs →
    (∀ tw ∈ l, GoodTw env idx default itemIds tw) →
    (∀ tw ∈ l, tw.status = some "pending") →
    (∀ tw ∈ l, (tw.uuid, tw.todoist_id) ∈ basePairs) →
    List.foldlM (pass1Step env idx default) s l = .ok s' →
    s'.items.map TiTask.id = itemIds ∧ twPairs s'.twtasks = basePairs ∧
    s'.labels = s.labels ∧ s'.projects = s.projects ∧
    ∀ t ∈ s'.items, t ∈ s.items ∨ PairsTid basePairs t.id := by
  induction l with
  | nil =>
    intro s s' hids hpairs _ _ _ hfold
    have heq : s = s' := by
      simpa [List.foldlM, pure, Except.pure] using hfold
    subst heq
    exact ⟨hids, hpairs, rfl, rfl, fun t ht => Or.inl ht⟩
  | cons tw0 l ih =>
    intro s s' hids hpairs hG hP hM hfold
    rw [List.foldlM_cons] at hfold
    obtain ⟨s₁, hstep, hrest⟩ := except_bind_ok hfold
    obtain ⟨h1, h2, h3, h4, h5⟩ := pass1Step_frozen env idx default hNF hids hpairs
      (hG tw0 (by simp)) (hP tw0 (by simp)) (hM tw0 (by simp)) hstep
    obtain ⟨k1, k2, k3, k4, k5⟩ := ih s₁ s' h1 h2
      (fun tw htw => hG tw (by simp [htw])) (fun tw htw => hP tw (by simp [htw]))
      (fun tw htw => hM tw (by simp [htw])) hrest
    refine ⟨k1, k2, k3.trans h3, k4.trans h4, ?_⟩
    intro t ht
    rcases k5 t ht with h | h
    · exact h5 t h
    · exact Or.inr h

theorem pass2Step_frozen (env : Env) (idx : Idx) (default : PName)
    {itemIds : List Nat} {basePairs : List (Nat × Option Nat)}
    {baseLabels : List (Nat × String)}
    (hNF : (basePairs.map Prod.fst).Nodup)
    {s : S} {ti : TiTask} {s₁ : S}
    (hids : s.items.map TiTask.id = itemIds)
    (hlab : s.labels = baseLabels)
    (hpairs : twPairs s.twtasks = basePairs)
    (hQ : ∀ c, _convert_ti_task env baseLabels idx ti = .ok c →
      projectEnabled env c.project = true → PairsTid basePairs ti.id)
    (hstep : pass2Step env idx default s ti = .ok s₁) :
    s₁.items.map TiTask.id = itemIds ∧ s₁.labels = baseLabels ∧
    twPairs s₁.twtasks = basePairs ∧ s₁.projects = s.projects := by
  unfold pass2Step at hstep
  rw [hlab] at hstep
  obtain ⟨c, hc, hrest⟩ := except_bind_ok hstep
  by_cases he : projectEnabled env c.project = true
  · rw [if_neg (not_not_intro he)] at hrest
    have hTid : HasTid s.twtasks ti.id := by
      rw [hasTid_iff_pairs, hpairs]
      exact hQ c hc he
    obtain ⟨tw0, hfind, hid0, hmem0⟩ := getTaskByTid_isSome hTid
    rw [hfind] at hrest
    dsimp only at hrest
    have hs₁ : s₁ = _sync_task idx s
        { tw0 with project := some (effP default tw0) } c := by
      have := hrest
      simp only [pure, Except.pure, Except.ok.injEq] at this
      exact this.symm
    subst hs₁
    obtain ⟨hproj, hlab', hshape, hitems⟩ := sync_task_shape idx s
      { tw0 with project := some (effP default tw0) } c
    have hcons : ∀ u ∈ s.twtasks, u.uuid = tw0.uuid →
        u.todoist_id = tw0.todoist_id := by
      intro u hu huu
      have h1 : (u.uuid, u.todoist_id) ∈ basePairs := by
        rw [← hpairs]
        exact List.mem_map_of_mem _ hu
      have h1m : (tw0.uuid, tw0.todoist_id) ∈ basePairs := by
        rw [← hpairs]
        exact List.mem_map_of_mem _ hmem0
      have h2 := nodup_key_eq Prod.fst basePairs hNF h1 h1m (by simpa using huu)
      simpa using congrArg Prod.snd h2
    refine ⟨?_, hlab'.trans hlab, ?_, hproj⟩
    · rcases hitems with heq | ⟨tid', hid', htarg⟩
      · rw [heq, hids]
      · rw [htarg.map_id, hids]
    · rw [hshape.pairs hcons, hpairs]
  · rw [if_pos he] at hrest
    have hs₁ : s₁ = s := by
      have := hrest
      simp only [pure, Except.pure, Except.ok.injEq] at this
      exact this.symm
    subst hs₁
    exact ⟨hids, hlab, hpairs, rfl⟩

theorem pass2_fold_frozen (env : Env) (idx : Idx) (default : PName)
    {itemIds : List Nat} {basePairs : List (Nat × Option Nat)}
    {baseLabels : List (Nat × String)}
    (hNF : (basePairs.map Prod.fst).Nodup) (l : List TiTask) :
    ∀ (s s' : S),
    s.items.map TiTask.id = itemIds →
    s.labels = baseLabels →
    twPairs s.twtasks = basePairs →
    (∀ ti ∈ l, ∀ c, _convert_ti_task env baseLabels idx ti = .ok c →
      projectEnabled env c.project = true → PairsTid basePairs ti.id) →
    List.foldlM (pass2Step env idx default) s l = .ok s' →
    s'.items.map TiTask.id = itemIds ∧ s'.labels = baseLabels ∧
    twPairs s'.twtasks = basePairs ∧ s'.projects = s.projects := by
  induction l with
  | nil =>
    intro s s' hids hlab hpairs _ hfold
    have heq : s = s' := by
      simpa [List.foldlM, pure, Except.pure] using hfold
    subst heq
    exact ⟨hids, hlab, hpairs, rfl⟩
  | cons ti0 l ih =>
    intro s s' hids hlab hpairs hQ hfold
    rw [List.foldlM_cons] at hfold
    obtain ⟨s₁, hstep, hrest⟩ := except_bind_ok hfold
    obtain ⟨h1, h2, h3, h4⟩ := pass2Step_frozen env idx default hNF hids hlab hpairs
      (hQ ti0 (by simp)) hstep
    obtain ⟨k1, k2, k3, k4⟩ := ih s₁ s' h1 h2 h3
      (fun ti hti => hQ ti (by simp [hti])) hrest
    exact ⟨k1, k2, k3, k4.trans h4⟩

/-- What one successful `sync` run leaves behind: every local task
satisfies the linkage invariant, and every remote task either resolves to
a disabled project or is already linked from some local task. -/
def Established (env : Env) (idx : Idx) (default : PName) (s1 : S) : Prop :=
  (∀ u ∈ s1.twtasks, GoodTw env idx default (s1.items.map TiTask.id) u) ∧
  (∀ ti ∈ s1.items,
    (∀ c, _convert_ti_task env s1.labels idx ti = .ok c →
      projectEnabled env c.project = false) ∨
    HasTid s1.twtasks ti.id)

/-- A `sync` run starting from an established state creates nothing on
either side: remote item ids and local (uuid, remote-id) pairs are frozen. -/
theorem sync_frozen (env : Env) (fuel : Nat) (idx : Idx) (s1 s2 : S)
    (hidx : _ti_project_list env fuel s1.projects = .ok idx)
    (hU : (s1.twtasks.map TwTask.uuid).Nodup)
    (hE : Established env idx (try_map env.project_map "Inbox") s1)
    (h2 : sync env fuel s1 = .ok s2) :
    s2.items.map TiTask.id = s1.items.map TiTask.id ∧
    twPairs s2.twtasks = twPairs s1.twtasks := by
  have hNF : ((twPairs s1.twtasks).map Prod.fst).Nodup := by
    rw [twPairs_fst]
    exact hU
  unfold sync at h2
  obtain ⟨idx', hidx', hrest⟩ := except_bind_ok h2
  rw [hidx] at hidx'
  obtain rfl : idx = idx' := by injection hidx'
  dsimp only at hrest
  obtain ⟨sMid, hfold1, hrest2⟩ := except_bind_ok hrest
  obtain ⟨h1, h2p, h3, h4, h5⟩ := pass1_fold_frozen env idx
    (try_map env.project_map "Inbox") hNF
    (s1.twtasks.filter (fun t => t.status = some "pending")) s1 sMid rfl rfl
    (fun tw htw => hE.1 tw (List.mem_of_mem_filter htw))
    (fun tw htw => by
      have := (List.mem_filter.mp htw).2
      exact of_decide_eq_true this)
    (fun tw htw => List.mem_map_of_mem _ (List.mem_of_mem_filter htw))
    hfold1
  obtain ⟨sEnd, hfold2, hpure⟩ := except_bind_ok hrest2
  have hs2 : s2 = sEnd := by
    have := hpure
    simp only [pure, Except.pure, Except.ok.injEq] at this
    exact this.symm
  subst hs2
  obtain ⟨k1, k2, k3, k4⟩ := pass2_fold_frozen env idx
    (try_map env.project_map "Inbox") hNF sMid.items sMid s2 h1 h3 h2p
    (fun ti hti c hc he => by
      rcases h5 ti hti with hmem | hp
      · rcases hE.2 ti hmem with hskip | htid
        · rw [hskip c hc] at he
          cases he
        · rw [← hasTid_iff_pairs]
          exact htid
      · exact hp)
    hfold2
  exact ⟨k1, k3⟩

theorem tw_mem_replace {l : List TwTask} {k : Nat} {nt u : TwTask}
    (h : u ∈ l.map (fun x => if x.uuid = k then nt else x)) :
    (u ∈ l ∧ u.uuid ≠ k) ∨ u = nt := by
  obtain ⟨v, hv, hvu⟩ := List.mem_map.mp h
  by_cases hk : v.uuid = k
  · right
    rw [if_pos hk] at hvu
    exact hvu.symm
  · left
    rw [if_neg hk] at hvu
    subst hvu
    exact ⟨hv, hk⟩

theorem map_replace_uuid {l : List TwTask} {k : Nat} {nt : TwTask}
    (hk : nt.uuid = k) :
    (l.map (fun x => if x.uuid = k then nt else x)).map TwTask.uuid =
      l.map TwTask.uuid := by
  rw [List.map_map]
  apply List.map_congr_left
  intro u _
  by_cases h : u.uuid = k <;> simp [h, hk]

theorem GoodTw.mono {env : Env} {idx : Idx} {default : PName}
    {ids ids' : List Nat} (hsub : ∀ i ∈ ids, i ∈ ids') {u : TwTask}
    (h : GoodTw env idx default ids u) : GoodTw env idx default ids' u := by
  intro hp he
  exact ⟨(h hp he).1, fun tid htid => hsub _ ((h hp he).2 tid htid)⟩

/-- A first-run pass-1 step preserves uniqueness, only grows the remote
item ids, touches no other local uuid, and leaves every local task at the
processed uuid satisfying the linkage invariant. -/
theorem pass1Step_establish (env : Env) (idx : Idx) (default : PName)
    {s : S} {tw0 : TwTask} {s₁ : S}
    (hU : (s.twtasks.map TwTask.uuid).Nodup)
    (hI : (s.items.map TiTask.id).Nodup)
    (hmem : tw0 ∈ s.twtasks)
    (hstep : pass1Step env idx default s tw0 = .ok s₁) :
    (s₁.twtasks.map TwTask.uuid).Nodup ∧
    (s₁.items.map TiTask.id).Nodup ∧
    s₁.labels = s.labels ∧ s₁.projects = s.projects ∧
    (∀ i ∈ s.items.map TiTask.id, i ∈ s₁.items.map TiTask.id) ∧
    (∀ u ∈ s.twtasks, u.uuid ≠ tw0.uuid → u ∈ s₁.twtasks) ∧
    (∀ u ∈ s₁.twtasks, u.uuid ≠ tw0.uuid → u ∈ s.twtasks) ∧
    (∀ u ∈ s₁.twtasks, u.uuid = tw0.uuid →
      GoodTw env idx default (s₁.items.map TiTask.id) u) := by
  unfold pass1Step at hstep
  dsimp only at hstep
  by_cases he : projectEnabled env (effP default tw0) = true
  · rw [if_neg (not_not_intro he)] at hstep
    cases hid : tw0.todoist_id with
    | some tid =>
      rw [hid] at hstep
      dsimp only at hstep
      cases hitem : getItemById s.items tid with
      | none =>
        rw [hitem] at hstep
        dsimp only at hstep
        have hs₁ : s₁ = taskDelete s tw0.uuid := by
          have := hstep
          simp only [Except.ok.injEq] at this
          exact this.symm
        subst hs₁
        obtain ⟨d1, d2, d3, d4⟩ := taskDelete_spec s tw0.uuid
        refine ⟨?_, by rw [d3]; exact hI, d2, d1,
          by rw [d3]; exact fun i hi => hi, ?_, ?_, ?_⟩
        · rw [d4]
          exact List.Nodup.sublist ((List.filter_sublist _).map _) hU
        · intro u hu hne
          rw [d4]
          exact List.mem_filter.mpr ⟨hu, by simpa using hne⟩
        · intro u hu _
          rw [d4] at hu
          exact List.mem_of_mem_filter hu
        · intro u hu huu
          rw [d4] at hu
          have h2 := (List.mem_filter.mp hu).2
          simp only [decide_eq_true_eq] at h2
          exact absurd huu h2
      | some ti =>
        rw [hitem] at hstep
        dsimp only at hstep
        obtain ⟨c, hc, hpure⟩ := except_bind_ok hstep
        have hs₁ : s₁ = _sync_task idx s
            { tw0 with project := some (effP default tw0),
                       todoist_id := some tid } c := by
          have := hpure
          simp only [pure, Except.pure, Except.ok.injEq] at this
          exact this.symm
        subst hs₁
        obtain ⟨hproj, hlab, hshape, hitems⟩ := sync_task_shape idx s
          { tw0 with project := some (effP default tw0),
                     todoist_id := some tid } c
        have hmemti : tid ∈ s.items.map TiTask.id := by
          have h1 := List.mem_of_find?_eq_some hitem
          have h2 := List.find?_some hitem
          simp only [decide_eq_true_eq] at h2
          rw [← h2]
          exact List.mem_map_of_mem _ h1
        have hidsEq : (_sync_task idx s
            { tw0 with project := some (effP default tw0),
                       todoist_id := some tid } c).items.map TiTask.id =
            s.items.map TiTask.id := by
          rcases hitems with heq | ⟨tid', _, htarg⟩
          · rw [heq]
          · exact htarg.map_id
        refine ⟨by rw [hshape.map_uuid]; exact hU, by rw [hidsEq]; exact hI,
          hlab, hproj, by rw [hidsEq]; exact fun i hi => hi, ?_, ?_, ?_⟩
        · intro u hu hne
          exact hshape.mem_ne hu hne
        · intro u hu hne
          rcases hshape.mem_inv hu with h | ⟨h1, _⟩
          · exact h
          · exact absurd h1 hne
        · intro u hu huu
          rcases hshape.mem_inv hu with h | ⟨_, h2⟩
          · obtain rfl := nodup_key_eq TwTask.uuid s.twtasks hU h hmem huu
            intro _ _
            refine ⟨fun hnone => ?_, fun tid' htid' => ?_⟩
            · rw [hid] at hnone
              cases hnone
            · rw [hid] at htid'
              injection htid' with hh
              rw [hidsEq, ← hh]
              exact hmemti
          · have h2' : u.todoist_id = some tid := h2
            intro _ _
            refine ⟨fun hnone => ?_, fun tid' htid' => ?_⟩
            · rw [h2'] at hnone
              cases hnone
            · rw [h2'] at htid'
              injection htid' with hh
              rw [hidsEq, ← hh]
              exact hmemti
    | none =>
      rw [hid] at hstep
      dsimp only at hstep
      have hs₁ : s₁ = _ti_add_task idx s
          { tw0 with project := some (effP default tw0), todoist_id := none } := by
        have := hstep
        simp only [Except.ok.injEq] at this
        exact this.symm
      subst hs₁
      rcases ti_add_task_spec idx s
          { tw0 with project := some (effP default tw0), todoist_id := none } with
        ⟨heq, hnolook⟩ | ⟨⟨pn', proj, hp', hlook⟩, hproj, hlab, hids1, nt, hntu, hntid, htw⟩
      · rw [heq]
        refine ⟨hU, hI, rfl, rfl, fun i hi => hi, fun u hu _ => hu,
          fun u hu _ => hu, ?_⟩
        intro u hu huu
        obtain rfl := nodup_key_eq TwTask.uuid s.twtasks hU hu hmem huu
        intro _ _
        refine ⟨fun _ => hnolook _ rfl, fun tid' htid' => ?_⟩
        rw [hid] at htid'
        cases htid'
      · have hntu' : nt.uuid = tw0.uuid := hntu
        have htw' : (_ti_add_task idx s
            { tw0 with project := some (effP default tw0),
                       todoist_id := none }).twtasks =
            s.twtasks.map (fun u => if u.uuid = tw0.uuid then nt else u) := htw
        refine ⟨?_, ?_, hlab, hproj, ?_, ?_, ?_, ?_⟩
        · rw [htw', map_replace_uuid hntu']
          exact hU
        · rw [hids1]
          refine List.Nodup.append hI (List.nodup_singleton _) ?_
          intro a ha hb
          simp only [List.mem_singleton] at hb
          subst hb
          exact freshTid_not_mem s ha
        · rw [hids1]
          exact fun i hi => List.mem_append_left _ hi
        · intro u hu hne
          rw [htw']
          have hm := List.mem_map_of_mem
            (fun u => if u.uuid = tw0.uuid then nt else u) hu
          simpa [hne] using hm
        · intro u hu hne
          rw [htw'] at hu
          rcases tw_mem_replace hu with ⟨h, _⟩ | rfl
          · exact h
          · exact absurd hntu' hne
        · intro u hu huu
          rw [htw'] at hu
          rcases tw_mem_replace hu with ⟨_, hne⟩ | rfl
          · exact absurd huu hne
          · intro _ _
            refine ⟨fun hnone => ?_, fun tid' htid' => ?_⟩
            · rw [hntid] at hnone
              cases hnone
            · rw [hntid] at htid'
              injection htid' with hh
              rw [hids1, ← hh]
              exact List.mem_append_right _ (by simp)
  · rw [if_pos he] at hstep
    have hs₁ : s₁ = s := by
      have := hstep
      simp only [Except.ok.injEq] at this
      exact this.symm
    subst hs₁
    refine ⟨hU, hI, rfl, rfl, fun i hi => hi, fun u hu _ => hu,
      fun u hu _ => hu, ?_⟩
    intro u hu huu
    obtain rfl := nodup_key_eq TwTask.uuid _ hU hu hmem huu
    intro _ hen
    exact absurd hen he

/-- Folding a first-run pass 1 over a uuid-distinct sublist of the local
tasks establishes the linkage invariant for every local task, assuming it
already holds for tasks outside the processed list. -/
theorem pass1_fold_establish (env : Env) (idx : Idx) (default : PName)
    (l : List TwTask) :
    ∀ (s s' : S),
    (s.twtasks.map TwTask.uuid).Nodup →
    (s.items.map TiTask.id).Nodup →
    (l.map TwTask.uuid).Nodup →
    (∀ tw ∈ l, tw ∈ s.twtasks) →
    (∀ u ∈ s.twtasks, u.uuid ∉ l.map TwTask.uuid →
      GoodTw env idx default (s.items.map TiTask.id) u) →
    List.foldlM (pass1Step env idx default) s l = .ok s' →
    (s'.twtasks.map TwTask.uuid).Nodup ∧
    (s'.items.map TiTask.id).Nodup ∧
    s'.labels = s.labels ∧ s'.projects = s.projects ∧
    (∀ i ∈ s.items.map TiTask.id, i ∈ s'.items.map TiTask.id) ∧
    (∀ u ∈ s'.twtasks, GoodTw env idx default (s'.items.map TiTask.id) u) := by
  induction l with
  | nil =>
    intro s s' hU hI _ _ hbase hfold
    have heq : s = s' := by
      simpa [List.foldlM, pure, Except.pure] using hfold
    subst heq
    exact ⟨hU, hI, rfl, rfl, fun i hi => hi,
      fun u hu => hbase u hu (by simp)⟩
  | cons tw0 l ih =>
    intro s s' hU hI hL hTl hbase hfold
    rw [List.foldlM_cons] at hfold
    obtain ⟨s₁, hstep, hrest⟩ := except_bind_ok hfold
    obtain ⟨p1, p2, p3, p4, p5, p6, p7, p8⟩ := pass1Step_establish env idx default
      hU hI (hTl tw0 (by simp)) hstep
    obtain ⟨k1, k2, k3, k4, k5, k6⟩ := ih s₁ s' p1 p2 (List.nodup_cons.mp hL).2
      (fun tw htw => by
        have hne : tw.uuid ≠ tw0.uuid := by
          intro hq
          apply (List.nodup_cons.mp hL).1
          rw [← hq]
          exact List.mem_map_of_mem _ htw
        exact p6 tw (hTl tw (List.mem_cons_of_mem _ htw)) hne)
      (fun u hu hrem => by
        by_cases hu0 : u.uuid = tw0.uuid
        · exact p8 u hu hu0
        · have hus : u ∈ s.twtasks := p7 u hu hu0
          have hnotin : u.uuid ∉ (tw0 :: l).map TwTask.uuid := by
            simp only [List.map_cons, List.mem_cons]
            rintro (h | h)
            · exact hu0 h
            · exact hrem h
          exact GoodTw.mono p5 (hbase u hus hnotin))
      hrest
    exact ⟨k1, k2, k3.trans p3, k4.trans p4, fun i hi => k5 i (p5 i hi), k6⟩

/-- The converted shape keeps the remote task's id. -/
theorem convert_ok_tid (env : Env) (labels : List (Nat × String)) (idx : Idx)
    (ti : TiTask) (c : CTask)
    (h : _convert_ti_task env labels idx ti = .ok c) : c.tid = ti.id := by
  unfold _convert_ti_task at h
  obtain ⟨pr, h1, h⟩ := except_bind_ok h
  obtain ⟨tags, h2, h⟩ := except_bind_ok h
  obtain ⟨entry, h3, h⟩ := except_bind_ok h
  obtain ⟨due, h4, h⟩ := except_bind_ok h
  simp only [pure, Except.pure, Except.ok.injEq] at h
  rw [← h]

/-- What pass 2 guarantees for a processed remote task: it still reads
back unchanged and resolves to a disabled project, or some local task
carries its id. -/
def TiDone (env : Env) (idx : Idx) (baseLabels : List (Nat × String))
    (s : S) (ti : TiTask) : Prop :=
  (getItemById s.items ti.id = some ti ∧
    ∀ c, _convert_ti_task env baseLabels idx ti = .ok c →
      projectEnabled env c.project = false) ∨
  HasTid s.twtasks ti.id

/-- A first-run pass-2 step: uuid uniqueness is kept, items are touched
only at the processed id, linked-ness is never lost, any new local task is
linked to the processed remote task, and the processed task ends up
`TiDone`. -/
theorem pass2Step_establish (env : Env) (idx : Idx) (default : PName)
    {s : S} {ti0 : TiTask} {s₁ : S}
    (hU : (s.twtasks.map TwTask.uuid).Nodup)
    (hstep : pass2Step env idx default s ti0 = .ok s₁) :
    (s₁.twtasks.map TwTask.uuid).Nodup ∧
    s₁.labels = s.labels ∧ s₁.projects = s.projects ∧
    (s₁.items = s.items ∨ ItemsTargeted ti0.id s.items s₁.items) ∧
    (∀ i, HasTid s.twtasks i → HasTid s₁.twtasks i) ∧
    (∀ u ∈ s₁.twtasks, u ∈ s.twtasks ∨ u.todoist_id = some ti0.id) ∧
    ((s₁ = s ∧ ∀ c, _convert_ti_task env s.labels idx ti0 = .ok c →
        projectEnabled env c.project = false) ∨
      HasTid s₁.twtasks ti0.id) := by
  unfold pass2Step at hstep
  obtain ⟨c, hc, hrest⟩ := except_bind_ok hstep
  by_cases he : projectEnabled env c.project = true
  · rw [if_neg (not_not_intro he)] at hrest
    cases hfind : getTaskByTid s ti0.id with
    | some tw0 =>
      rw [hfind] at hrest
      dsimp only at hrest
      have hs₁ : s₁ = _sync_task idx s
          { tw0 with project := some (effP default tw0) } c := by
        have := hrest
        simp only [pure, Except.pure, Except.ok.injEq] at this
        exact this.symm
      subst hs₁
      obtain ⟨hproj, hlab, hshape, hitems⟩ := sync_task_shape idx s
        { tw0 with project := some (effP default tw0) } c
      have hmem0 : tw0 ∈ s.twtasks := List.mem_of_find?_eq_some hfind
      have htid0 : tw0.todoist_id = some ti0.id := by
        have := List.find?_some hfind
        simpa using this
      have hcons : ∀ u ∈ s.twtasks, u.uuid = tw0.uuid →
          u.todoist_id = tw0.todoist_id := by
        intro u hu huu
        obtain rfl := nodup_key_eq TwTask.uuid s.twtasks hU hu hmem0 huu
        rfl
      refine ⟨by rw [hshape.map_uuid]; exact hU, hlab, hproj, ?_, ?_, ?_, ?_⟩
      · rcases hitems with heq | ⟨tid', hid', htarg⟩
        · exact Or.inl heq
        · have hid'' : tw0.todoist_id = some tid' := hid'
          rw [htid0] at hid''
          injection hid'' with hh
          rw [← hh] at htarg
          exact Or.inr htarg
      · intro i hi
        exact hshape.hasTid hcons hi
      · intro u hu
        rcases hshape.mem_inv hu with h | ⟨_, h2⟩
        · exact Or.inl h
        · have h2' : u.todoist_id = tw0.todoist_id := h2
          rw [htid0] at h2'
          exact Or.inr h2'
      · refine Or.inr ?_
        exact hshape.hasTid hcons ⟨tw0, hmem0, htid0⟩
    | none =>
      rw [hfind] at hrest
      dsimp only at hrest
      have hs₁ : s₁ = _tw_add_task s c := by
        have := hrest
        simp only [pure, Except.pure, Except.ok.injEq] at this
        exact this.symm
      subst hs₁
      obtain ⟨aproj, alab, aitems, nt, hntu, hntid, htw⟩ := tw_add_task_spec s c
      have htid' : nt.todoist_id = some ti0.id := by
        rw [hntid, convert_ok_tid env s.labels idx ti0 c hc]
      refine ⟨?_, alab, aproj, Or.inl aitems, ?_, ?_, ?_⟩
      · rw [htw, List.map_append]
        refine List.Nodup.append hU (by simp) ?_
        intro a ha hb
        simp only [List.map_cons, List.map_nil, List.mem_singleton] at hb
        subst hb
        rw [hntu] at ha
        exact freshUuid_not_mem s ha
      · intro i hi
        obtain ⟨u, hu, huid⟩ := hi
        exact ⟨u, by rw [htw]; exact List.mem_append_left _ hu, huid⟩
      · intro u hu
        rw [htw] at hu
        rcases List.mem_append.mp hu with h | h
        · exact Or.inl h
        · simp only [List.mem_singleton] at h
          subst h
          exact Or.inr htid'
      · refine Or.inr ⟨nt, ?_, htid'⟩
        rw [htw]
        exact List.mem_append_right _ (by simp)
  · rw [if_pos he] at hrest
    have hs₁ : s₁ = s := by
      have := hrest
      simp only [pure, Except.pure, Except.ok.injEq] at this
      exact this.symm
    subst hs₁
    rw [Bool.not_eq_true] at he
    refine ⟨hU, rfl, rfl, Or.inl rfl, fun i hi => hi, fun u hu => Or.inl hu, ?_⟩
    refine Or.inl ⟨rfl, fun c' hc' => ?_⟩
    rw [hc] at hc'
    injection hc' with hh
    rw [← hh]
    exact he

/-- Folding a first-run pass 2 over an id-distinct snapshot of the remote
tasks makes every one of them `TiDone`, keeps the remote ids, and links
every new local task to a snapshot task. -/
theorem pass2_fold_establish (env : Env) (idx : Idx) (default : PName)
    {baseLabels : List (Nat × String)} (l : List TiTask) :
    ∀ (s s' : S),
    (s.twtasks.map TwTask.uuid).Nodup →
    s.labels = baseLabels →
    (l.map TiTask.id).Nodup →
    (∀ ti ∈ l, getItemById s.items ti.id = some ti) →
    List.foldlM (pass2Step env idx default) s l = .ok s' →
    (s'.twtasks.map TwTask.uuid).Nodup ∧
    s'.labels = baseLabels ∧ s'.projects = s.projects ∧
    s'.items.map TiTask.id = s.items.map TiTask.id ∧
    (∀ u ∈ s'.twtasks, u ∈ s.twtasks ∨
      ∃ i ∈ l.map TiTask.id, u.todoist_id = some i) ∧
    (∀ ti ∈ l, TiDone env idx baseLabels s' ti) ∧
    (∀ ti : TiTask, ti.id ∉ l.map TiTask.id →
      TiDone env idx baseLabels s ti → TiDone env idx baseLabels s' ti) := by
  induction l with
  | nil =>
    intro s s' hU hlab _ _ hfold
    have heq : s = s' := by
      simpa [List.foldlM, pure, Except.pure] using hfold
    subst heq
    exact ⟨hU, hlab, rfl, rfl, fun u hu => Or.inl hu, by simp,
      fun ti _ hd => hd⟩
  | cons ti0 l ih =>
    intro s s' hU hlab hNd hfresh hfold
    rw [List.foldlM_cons] at hfold
    obtain ⟨s₁, hstep, hrest⟩ := except_bind_ok hfold
    obtain ⟨q1, q2, q3, q4, q5, q6, q7⟩ := pass2Step_establish env idx default hU hstep
    have hids₁ : s₁.items.map TiTask.id = s.items.map TiTask.id := by
      rcases q4 with heq | ht
      · rw [heq]
      · exact ht.map_id
    have hstepDone : ∀ ti : TiTask, ti.id ≠ ti0.id →
        TiDone env idx baseLabels s ti → TiDone env idx baseLabels s₁ ti := by
      intro ti hne hd
      rcases hd with ⟨hget, hskip⟩ | htid
      · refine Or.inl ⟨?_, hskip⟩
        rcases q4 with heq | ht
        · rw [heq]
          exact hget
        · rw [ht.getItemById_ne ti.id hne]
          exact hget
      · exact Or.inr (q5 ti.id htid)
    obtain ⟨k1, k2, k3, k4, k5, k6, k7⟩ := ih s₁ s' q1 (q2.trans hlab)
      (List.nodup_cons.mp hNd).2
      (fun ti hti => by
        have hne : ti.id ≠ ti0.id := by
          intro hq
          apply (List.nodup_cons.mp hNd).1
          rw [← hq]
          exact List.mem_map_of_mem _ hti
        rcases q4 with heq | ht
        · rw [heq]
          exact hfresh ti (List.mem_cons_of_mem _ hti)
        · rw [ht.getItemById_ne ti.id hne]
          exact hfresh ti (List.mem_cons_of_mem _ hti))
      hrest
    have hnotin0 : ti0.id ∉ l.map TiTask.id := (List.nodup_cons.mp hNd).1
    refine ⟨k1, k2, k3.trans q3, k4.trans hids₁, ?_, ?_, ?_⟩
    · intro u hu
      rcases k5 u hu with h | ⟨i, hi, hid⟩
      · rcases q6 u h with h' | h'
        · exact Or.inl h'
        · exact Or.inr ⟨ti0.id, by simp, h'⟩
      · exact Or.inr ⟨i, by simp [hi], hid⟩
    · intro ti hti
      rcases List.mem_cons.mp hti with rfl | htl
      · refine k7 ti hnotin0 ?_
        rcases q7 with ⟨heq, hskip⟩ | htid
        · refine Or.inl ⟨?_, ?_⟩
          · rw [heq]
            exact hfresh ti (by simp)
          · rw [← hlab]
            exact hskip
        · exact Or.inr htid
      · exact k6 ti htl
    · intro ti hnin hd
      have hne : ti.id ≠ ti0.id := by
        intro hq
        exact hnin (by simp [hq])
      refine k7 ti (fun hq => hnin (by simp [hq])) (hstepDone ti hne hd)

/-- A successful `sync` run from a store with distinct uuids and distinct
remote ids establishes `Established` and preserves the remote projects. -/
theorem sync_establishes (env : Env) (fuel : Nat) (idx : Idx) (s s1 : S)
    (hidx : _ti_project_list env fuel s.projects = .ok idx)
    (hU : (s.twtasks.map TwTask.uuid).Nodup)
    (hI : (s.items.map TiTask.id).Nodup)
    (h1 : sync env fuel s = .ok s1) :
    (s1.twtasks.map TwTask.uuid).Nodup ∧
    Established env idx (try_map env.project_map "Inbox") s1 ∧
    s1.projects = s.projects := by
  unfold sync at h1
  obtain ⟨idx', hidx', hrest⟩ := except_bind_ok h1
  rw [hidx] at hidx'
  obtain rfl : idx = idx' := by injection hidx'
  dsimp only at hrest
  obtain ⟨sMid, hfold1, hrest2⟩ := except_bind_ok hrest
  obtain ⟨e1, e2, e3, e4, e5, e6⟩ := pass1_fold_establish env idx
    (try_map env.project_map "Inbox")
    (s.twtasks.filter (fun t => t.status = some "pending")) s sMid hU hI
    (List.Nodup.sublist ((List.filter_sublist _).map _) hU)
    (fun tw htw => List.mem_of_mem_filter htw)
    (fun u hu hnotin => by
      intro hp hen
      exfalso
      apply hnotin
      refine List.mem_map_of_mem _ ?_
      exact List.mem_filter.mpr ⟨hu, by simp [hp]⟩)
    hfold1
  obtain ⟨sEnd, hfold2, hpure⟩ := except_bind_ok hrest2
  have hs1 : s1 = sEnd := by
    have := hpure
    simp only [pure, Except.pure, Except.ok.injEq] at this
    exact this.symm
  subst hs1
  obtain ⟨k1, k2, k3, k4, k5, k6, k7⟩ := pass2_fold_establish env idx
    (try_map env.project_map "Inbox") sMid.items sMid s1 e1 rfl e2
    (fun ti hti => find?_self_of_nodup TiTask.id sMid.items e2 hti)
    hfold2
  have hNodupI1 : (s1.items.map TiTask.id).Nodup := by
    rw [k4]
    exact e2
  refine ⟨k1, ⟨?_, ?_⟩, k3.trans e4⟩
  · intro u hu
    rcases k5 u hu with hm | ⟨i, hi, hid⟩
    · refine GoodTw.mono ?_ (e6 u hm)
      intro i hi
      rw [k4]
      exact hi
    · intro _ _
      refine ⟨fun hnone => ?_, fun tid htid => ?_⟩
      · rw [hid] at hnone
        cases hnone
      · rw [hid] at htid
        injection htid with hh
        rw [k4, ← hh]
        exact hi
  · intro ti hti
    have hmemid : ti.id ∈ sMid.items.map TiTask.id := by
      rw [← k4]
      exact List.mem_map_of_mem _ hti
    obtain ⟨ti0, hti0, hid0⟩ := List.mem_map.mp hmemid
    rcases k6 ti0 hti0 with ⟨hget, hskip⟩ | htid
    · have hself : getItemById s1.items ti.id = some ti :=
        find?_self_of_nodup TiTask.id s1.items hNodupI1 hti
      rw [hid0] at hget
      rw [hself] at hget
      injection hget with hh
      subst hh
      refine Or.inl ?_
      intro c hc
      rw [k2] at hc
      exact hskip c hc
    · rw [hid0] at htid
      exact Or.inr htid

/-- **C1, amended.** Running `sync` twice in succession (same
configuration, same fuel, stores with distinct local uuids and distinct
remote ids) creates no second local or remote task: the second run leaves
the remote item ids and the local task uuids exactly as the first run left
them.  On the second run every local pending task whose effective project
is enabled *and is a key of the project index* already carries a
remote-identifier field pointing at an existing remote task (without the
index-membership amendment this fails: remote creation silently aborts for
an enabled project unknown to Todoist), and every remote task that
converts to an enabled project already has a local task carrying its
identifier. -/
theorem claim_C1_amended (env : Env) (fuel : Nat) (idx : Idx) (s s1 s2 : S)
    (hU : (s.twtasks.map TwTask.uuid).Nodup)
    (hI : (s.items.map TiTask.id).Nodup)
    (hidx : _ti_project_list env fuel s.projects = .ok idx)
    (h1 : sync env fuel s = .ok s1)
    (h2 : sync env fuel s1 = .ok s2) :
    s2.items.map TiTask.id = s1.items.map TiTask.id ∧
    s2.twtasks.map TwTask.uuid = s1.twtasks.map TwTask.uuid ∧
    twPairs s2.twtasks = twPairs s1.twtasks ∧
    (∀ u ∈ s1.twtasks, u.status = some "pending" →
      projectEnabled env (effP (try_map env.project_map "Inbox") u) = true →
      (∃ pr, alookup idx (effP (try_map env.project_map "Inbox") u) = some pr) →
      ∃ tid, u.todoist_id = some tid ∧ tid ∈ s1.items.map TiTask.id) ∧
    (∀ ti ∈ s1.items, ∀ c, _convert_ti_task env s1.labels idx ti = .ok c →
      projectEnabled env c.project = true → HasTid s1.twtasks ti.id) := by
  obtain ⟨hU1, hE, hP1⟩ := sync_establishes env fuel idx s s1 hidx hU hI h1
  have hidx1 : _ti_project_list env fuel s1.projects = .ok idx := by
    rw [hP1]
    exact hidx
  obtain ⟨f1, f2⟩ := sync_frozen env fuel idx s1 s2 hidx1 hU1 hE h2
  refine ⟨f1, ?_, f2, ?_, ?_⟩
  · rw [← twPairs_fst, ← twPairs_fst, f2]
  · intro u hu hp hen hlook
    rcases hlook with ⟨pr, hpr⟩
    cases hid : u.todoist_id with
    | none =>
      have hnone := (hE.1 u hu hp hen).1 hid
      rw [hnone] at hpr
      cases hpr
    | some tid =>
      exact ⟨tid, rfl, (hE.1 u hu hp hen).2 tid hid⟩
  · intro ti hti c hc hen
    rcases hE.2 ti hti with hskip | htid
    · rw [hskip c hc] at hen
      cases hen
    · exact htid

/-- C1 witness data: one enabled, index-known project, one remote item,
one pending prioritised local task. -/
def envW : Env := ⟨[], [], [(some "work", true)], none⟩
def idxW : Idx := [(some "work", ⟨1, "work", none⟩)]
def sW : S :=
  ⟨[⟨1, "work", none⟩],
   [⟨10, "buy milk", 1, 1, [], "", none, 0⟩],
   [],
   [⟨5, "local task", some (some "work"), none, some (some TwPrio.M), none,
     none, none, some "pending", none, none, 0⟩],
   0, 0⟩
def s1W : S :=
  ⟨[⟨1, "work", none⟩],
   [⟨10, "buy milk", 1, 1, [], "", none, 0⟩,
    ⟨11, "local task", 1, 3, [], "", none, 0⟩],
   [],
   [⟨5, "local task", some (some "work"), none, some (some TwPrio.M), none,
     none, none, some "pending", some 11, some 4, 5⟩,
    ⟨6, "buy milk", some (some "work"), some [], some none, some none,
     some none, some none, some "pending", some 10, some 2, 3⟩],
   6, 2⟩
def s2W : S :=
  ⟨[⟨1, "work", none⟩],
   [⟨10, "buy milk", 1, 1, [], "", none, 0⟩,
    ⟨11, "local task", 1, 3, [], "", none, 0⟩],
   [],
   [⟨5, "local task", some (some "work"), none, some (some TwPrio.M), none,
     none, none, some "pending", some 11, some 12, 13⟩,
    ⟨6, "buy milk", some (some "work"), some [], some none, some none,
     some none, some none, some "pending", some 10, some 10, 11⟩],
   14, 6⟩

/-- Witness for C1 amended: both runs succeed on concrete data and the
second run reproduces the first run's remote ids and local uuids. -/
theorem claim_C1_amended_witness :
    (sW.twtasks.map TwTask.uuid).Nodup ∧ (sW.items.map TiTask.id).Nodup ∧
    _ti_project_list envW 10 sW.projects = .ok idxW ∧
    sync envW 10 sW = .ok s1W ∧ sync envW 10 s1W = .ok s2W ∧
    s2W.items.map TiTask.id = s1W.items.map TiTask.id ∧
    s2W.twtasks.map TwTask.uuid = s1W.twtasks.map TwTask.uuid := by
  have h := claim_C1_amended envW 10 idxW sW s1W s2W (by decide) (by decide)
    (by decide) (by decide) (by decide)
  exact ⟨by decide, by decide, by decide, by decide, by decide, h.1, h.2.1⟩

end TodoistTW
